import Mathlib

/-!
Verification of the Black & Light image pipeline (a TypeScript repository).

The numeric core of the repository lives in two files:
`src/lib/presets.ts` (which also embeds the full rendering engine:
`analyzeImage` / `renderFrameFromAnalysis`) and `src/lib/pipeline.ts`
(an older single-shot `transformImage` variant), with metrics in
`src/lib/metrics.ts`.

Modelling conventions used throughout this development:

* JavaScript `number` arithmetic is modelled over `ℚ` (exact rationals).
  All comparisons, clamps, divisions and histogram computations in the
  source are translated verbatim over `ℚ`.
* The transcendental primitives of `Math` (`sin`, `cos`, `atan2`, `exp`,
  fractional `pow`, `hypot`, `log1p`, and the constant `PI`) have no exact
  rational counterpart.  They are pure functions in JavaScript, so they are
  passed to the embedding as an explicit bundle of opaque pure functions
  (`MathOracle`).  Every theorem below quantifies over the bundle, hence
  holds in particular for the real `Math` functions; concrete witnesses
  instantiate the bundle with trivial total functions.
* `hashNoise` is bit-exact: JavaScript 32-bit coercions (`|0`-style
  `ToInt32`, `>>>`-style `ToUint32`, arithmetic shifts) and the IEEE-754
  double rounding of the oversized integer product are modelled exactly
  (`toUint32`, `int32Val`, `sar32`, `roundNE53`).
* Raster buffers (`Float32Array`, `Uint8Array`) are `List ℚ` / `List ℕ`
  in row-major order; out-of-range reads use `List.getD _ _ 0`, matching
  in-bounds usage in the source.  Two-dimensional writes `dst[y*w+x] = f`
  over `y < h`, `x < w` are assembled with `mkGrid`.
* The rolling-sum box blur telescopes (over exact arithmetic) to the
  clamped moving-window sum; the embedding keeps the rolling-sum shape of
  the source.
-/

/-- `clamp01` from both `presets.ts` and `pipeline.ts`:
if (v < 0) return 0; if (v > 1) return 1; return v. -/
def clamp01 (v : ℚ) : ℚ :=
  if v < 0 then 0 else if v > 1 then 1 else v

/-- JavaScript `Math.round` (round half toward +infinity): `⌊x + 1/2⌋`. -/
def roundQ (v : ℚ) : ℤ :=
  Int.floor (v + 1/2)

/-- The `EPS = 1e-6` constant shared by both pipeline files. -/
def EPS : ℚ := 1/1000000

/-- The list of integers `lo, lo+1, …, hi` (empty when `hi < lo`);
used to model `for (let k = lo; k <= hi; k += 1)` loops. -/
def intRange (lo hi : ℤ) : List ℤ :=
  (List.range (hi + 1 - lo).toNat).map (fun n : ℕ => lo + (n : ℤ))

/-- Edge-clamped index `Math.min(n - 1, Math.max(0, k))` used by the blur. -/
def clampIdx (n : ℕ) (k : ℤ) : ℕ :=
  (min ((n : ℤ) - 1) (max 0 k)).toNat

/-- Row-major assembly of a `w × h` buffer written as `dst[y*w+x] = f x y`
by the double loops `for y < h: for x < w` of the source. -/
def mkGrid (w h : ℕ) (f : ℕ → ℕ → α) : List α :=
  (List.range (w * h)).map (fun i => f (i % w) (i / w))

/-- JavaScript `ToUint32` of an integer-valued double (`n >>> 0`). -/
def toUint32 (n : ℤ) : ℕ :=
  (n % 4294967296).toNat

/-- Signed value of a 32-bit pattern (JavaScript `ToInt32` result). -/
def int32Val (p : ℕ) : ℤ :=
  if p < 2147483648 then (p : ℤ) else (p : ℤ) - 4294967296

/-- Arithmetic (sign-extending) right shift by `k` on a 32-bit pattern:
the bit pattern of JavaScript `v >> k` for an `Int32` with pattern `p`. -/
def sar32 (p k : ℕ) : ℕ :=
  p / 2 ^ k + (if 2147483648 ≤ p then 4294967296 - 2 ^ (32 - k) else 0)

/-- IEEE-754 double rounding (round to nearest, ties to even, 53-bit
significand) of an exact integer: models the value stored by JavaScript
for an oversized integer product. Exact below `2^53`. -/
def roundNE53 (v : ℤ) : ℤ :=
  let a := v.natAbs
  if a < 2 ^ 53 then v
  else
    let k := Nat.log2 a - 52
    let q := a / 2 ^ k
    let r := a % 2 ^ k
    let half := 2 ^ (k - 1)
    let q2 := if half < r then q + 1 else if r < half then q
      else if q % 2 = 0 then q else q + 1
    v.sign * ((q2 * 2 ^ k : ℕ) : ℤ)

/-- `hashNoise` from `presets.ts` (identical in `pipeline.ts`):

    const n = x * 374761393 + y * 668265263;
    const t = (n ^ (n >> 13)) * 1274126177;
    return ((t ^ (t >> 16)) >>> 0) / 4294967295;

The products and the sum are rounded to double precision (`roundNE53`),
`^` and `>>` act on the `ToInt32` patterns, and the final `>>> 0`
reinterprets the xor pattern as an unsigned 32-bit integer. -/
def hashNoise (x y : ℤ) : ℚ :=
  let n := roundNE53 (roundNE53 (x * 374761393) + roundNE53 (y * 668265263))
  let p := toUint32 n
  let m := int32Val (p ^^^ sar32 p 13)
  let t := roundNE53 (m * 1274126177)
  let q := toUint32 t
  ((q ^^^ sar32 q 16 : ℕ) : ℚ) / 4294967295

/-- Initial rolling sum of the horizontal blur pass at the start of row
`y`: `for k = -radius..radius: sum += src[y*width + min(w-1, max(0, k))]`. -/
def blurRowInit (src : List ℚ) (w y r : ℕ) : ℚ :=
  ((intRange (-(r : ℤ)) r).map (fun k => src.getD (y * w + clampIdx w k) 0)).sum

/-- Horizontal blur pass for row `y` of `boxBlur`, with the rolling-sum
update `sum += src[addX] - src[removeX]` of the source. -/
def blurRow (src : List ℚ) (w y r : ℕ) : List ℚ :=
  ((List.range w).foldl
    (fun (st : ℚ × List ℚ) x =>
      let out := st.2 ++ [st.1 / ((2 * r + 1 : ℕ) : ℚ)]
      let sum := st.1 + src.getD (y * w + clampIdx w ((x : ℤ) + r + 1)) 0
        - src.getD (y * w + clampIdx w ((x : ℤ) - r)) 0
      (sum, out))
    (blurRowInit src w y r, [])).2

/-- Initial rolling sum of the vertical blur pass at the top of column `x`. -/
def blurColInit (tmp : List ℚ) (w x r : ℕ) (h : ℕ) : ℚ :=
  ((intRange (-(r : ℤ)) r).map (fun k => tmp.getD (clampIdx h k * w + x) 0)).sum

/-- Vertical blur pass for column `x`: returns the column of `dst` values. -/
def blurCol (tmp : List ℚ) (w h x r : ℕ) : List ℚ :=
  ((List.range h).foldl
    (fun (st : ℚ × List ℚ) y =>
      let out := st.2 ++ [st.1 / ((2 * r + 1 : ℕ) : ℚ)]
      let sum := st.1 + tmp.getD (clampIdx h ((y : ℤ) + r + 1) * w + x) 0
        - tmp.getD (clampIdx h ((y : ℤ) - r) * w + x) 0
      (sum, out))
    (blurColInit tmp w x r h, [])).2

/-- `boxBlur` from both pipeline files: separable rolling-window mean of
radius `r` with edge clamping; identity (a copy) for `radius <= 0`. -/
def boxBlur (src : List ℚ) (w h r : ℕ) : List ℚ :=
  if r = 0 then src
  else
    let tmp := (List.range h).flatMap (fun y => blurRow src w y r)
    mkGrid w h (fun x y => (blurCol tmp w h x r).getD y 0)

/-- Histogram bin of a value in `normalizeByPercentile`:
`Math.min(255, Math.max(0, Math.round(src[i] * 255)))`. -/
def binOf (v : ℚ) : ℕ :=
  (min 255 (max 0 (roundQ (v * 255)))).toNat

/-- Cumulative histogram count `Σ_{b ≤ i} hist[b]` of a buffer: the number
of elements whose `binOf` bin is at most `i`.  Equals the accumulator
`acc` of the source after adding `hist[i]`. -/
def cumBin (src : List ℚ) (i : ℕ) : ℕ :=
  src.countP (fun v => binOf v ≤ i)

/-- The low cut bin: the first `i` with cumulative count `≥ src.length * pLow`
(the source initializes `lowBin = 0` and keeps it when the loop never breaks). -/
def lowBinOf (src : List ℚ) (pLow : ℚ) : ℕ :=
  ((List.range 256).find? (fun i => (src.length : ℚ) * pLow ≤ (cumBin src i : ℚ))).getD 0

/-- The high cut bin: the first `i` with cumulative count `≥ src.length * pHigh`
(the source initializes `highBin = 255`). -/
def highBinOf (src : List ℚ) (pHigh : ℚ) : ℕ :=
  ((List.range 256).find? (fun i => (src.length : ℚ) * pHigh ≤ (cumBin src i : ℚ))).getD 255

/-- `normalizeByPercentile` from both pipeline files: histogram percentile
stretch with `low = lowBin/255`, `high = max(low + 1/255, highBin/255)`,
mapping each element to `clamp01((v - low) / (high - low))`. -/
def normalizeByPercentile (src : List ℚ) (pLow pHigh : ℚ) : List ℚ :=
  let low : ℚ := (lowBinOf src pLow : ℚ) / 255
  let high : ℚ := max (low + 1/255) ((highBinOf src pHigh : ℚ) / 255)
  src.map (fun v => clamp01 ((v - low) / (high - low)))

/-- The transcendental `Math` primitives used by the pipeline.  They are
pure functions in JavaScript; the embedding abstracts them as an explicit
bundle of total functions and quantifies over the bundle. -/
structure MathOracle where
  sin : ℚ → ℚ
  cos : ℚ → ℚ
  atan2 : ℚ → ℚ → ℚ
  exp : ℚ → ℚ
  pow : ℚ → ℚ → ℚ
  hypot : ℚ → ℚ → ℚ
  log1p : ℚ → ℚ
  pi : ℚ

/-- A trivial oracle instantiation used by concrete witnesses. -/
def trivialOracle : MathOracle :=
  ⟨fun _ => 0, fun _ => 0, fun _ _ => 0, fun _ => 0,
   fun _ _ => 0, fun _ _ => 0, fun _ => 0, 0⟩

/-- `toGray` from both pipeline files: Rec. 601 luminance of an RGB8
buffer, `clamp01(0.299 r + 0.587 g + 0.114 b)` with channels scaled by 255. -/
def toGray (rgb : List ℕ) (w h : ℕ) : List ℚ :=
  (List.range (w * h)).map (fun i =>
    let r := (rgb.getD (i * 3) 0 : ℚ) / 255
    let g := (rgb.getD (i * 3 + 1) 0 : ℚ) / 255
    let b := (rgb.getD (i * 3 + 2) 0 : ℚ) / 255
    clamp01 (0.299 * r + 0.587 * g + 0.114 * b))

/-- `illuminationNormalize` from both pipeline files: homomorphic division
by a large-radius blur, `log1p` compression, double percentile stretch,
high-pass rebalancing, and a final percentile stretch. -/
def illuminationNormalize (O : MathOracle) (gray : List ℚ) (w h : ℕ) : List ℚ :=
  let baseRadius := max 6 (Int.floor ((min w h : ℕ) * (0.03 : ℚ))).toNat
  let low := boxBlur gray w h baseRadius
  let out := (List.range gray.length).map (fun i =>
    O.log1p (gray.getD i 0 / (low.getD i 0 + EPS) * 1.5))
  let normalized := normalizeByPercentile (normalizeByPercentile out 0.01 0.99) 0.02 0.98
  let lcl := boxBlur normalized w h 2
  let normalized2 := (List.range normalized.length).map (fun i =>
    clamp01 (0.72 * normalized.getD i 0 +
      0.28 * ((normalized.getD i 0 - lcl.getD i 0) + 0.5)))
  normalizeByPercentile normalized2 0.01 0.99

/-- The `SobelResult` record of both pipeline files. -/
structure SobelResult where
  mag : List ℚ
  gx : List ℚ
  gy : List ℚ

/-- `sobel` from both pipeline files: 3×3 Sobel on interior pixels
(borders stay zero), followed by division of the magnitude buffer by the
maximum magnitude tracked with a `1e-6` floor. -/
def sobel (O : MathOracle) (src : List ℚ) (w h : ℕ) : SobelResult :=
  let interior := fun (x y : ℕ) => 1 ≤ y ∧ y + 1 < h ∧ 1 ≤ x ∧ x + 1 < w
  let gxAt := fun (x y : ℕ) =>
    -src.getD ((y-1)*w + (x-1)) 0 - 2 * src.getD (y*w + (x-1)) 0 - src.getD ((y+1)*w + (x-1)) 0
      + src.getD ((y-1)*w + (x+1)) 0 + 2 * src.getD (y*w + (x+1)) 0 + src.getD ((y+1)*w + (x+1)) 0
  let gyAt := fun (x y : ℕ) =>
    -src.getD ((y-1)*w + (x-1)) 0 - 2 * src.getD ((y-1)*w + x) 0 - src.getD ((y-1)*w + (x+1)) 0
      + src.getD ((y+1)*w + (x-1)) 0 + 2 * src.getD ((y+1)*w + x) 0 + src.getD ((y+1)*w + (x+1)) 0
  let gx := mkGrid w h (fun x y => if interior x y then gxAt x y else 0)
  let gy := mkGrid w h (fun x y => if interior x y then gyAt x y else 0)
  let mag0 := mkGrid w h (fun x y => if interior x y then O.hypot (gxAt x y) (gyAt x y) else 0)
  let maxMag := mag0.foldl (fun acc m => if m > acc then m else acc) EPS
  ⟨mag0.map (fun m => m / maxMag), gx, gy⟩

/-- Saliency buffer of `estimateForegroundMask` (identical in both files):
`clamp01(|blur(norm,3) - blur(norm,14)| * 1.8)`. -/
def fgSaliency (norm : List ℚ) (w h : ℕ) : List ℚ :=
  let blurSmall := boxBlur norm w h 3
  let blurLarge := boxBlur norm w h 14
  (List.range norm.length).map (fun i =>
    clamp01 (|blurSmall.getD i 0 - blurLarge.getD i 0| * 1.8))

/-- Score buffer of `estimateForegroundMask` (identical in both files):
`clamp01(0.48 mag + 0.42 saliency + centerBias * (1 - dist/maxDist))`. -/
def fgScore (O : MathOracle) (norm edgeMag : List ℚ) (w h : ℕ) (centerBiasWeight : ℚ) :
    List ℚ :=
  let saliency := fgSaliency norm w h
  let cx : ℚ := (w : ℚ) / 2
  let cy : ℚ := (h : ℚ) / 2
  let maxDist := O.hypot cx cy
  mkGrid w h (fun x y =>
    let i := y * w + x
    let d := O.hypot ((x : ℚ) - cx) ((y : ℚ) - cy) / maxDist
    clamp01 (0.48 * edgeMag.getD i 0 + 0.42 * saliency.getD i 0 + centerBiasWeight * (1 - d)))

/-- Threshold of `estimateForegroundMask`: the quantile bin of the score
histogram at target fraction `q` (0.64 in `presets.ts`, 0.74 in
`pipeline.ts`), divided by 255; the bin defaults to 160 when the scan
never reaches the target.  The source builds this histogram with the
unclamped `Math.round(score[i] * 255)`; all score values are produced by
`clamp01`, so the clamp inside the shared `binOf` never fires and the
count agrees. -/
def fgThr (score : List ℚ) (q : ℚ) : ℚ :=
  (((List.range 256).find?
      (fun i => (score.length : ℚ) * q ≤ (cumBin score i : ℚ))).getD 160 : ℚ) / 255

/-- Raw thresholded-mask white ratio of `estimateForegroundMask`:
fraction of score pixels strictly above the threshold. -/
def fgRawFraction (score : List ℚ) (q : ℚ) : ℚ :=
  ((score.countP (fun v => fgThr score q < v) : ℚ)) / (score.length : ℚ)

/-- `estimateForegroundMask` from `presets.ts`: quantile 0.64, fallback
when the raw ratio is outside `(0.03, 0.86)`, rebinarization bound 0.42. -/
def presetsEstimateForegroundMask (O : MathOracle) (norm edgeMag : List ℚ)
    (w h : ℕ) (centerBiasWeight : ℚ) : List ℚ × Bool :=
  let score := fgScore O norm edgeMag w h centerBiasWeight
  let ratio := fgRawFraction score 0.64
  if ratio < 0.03 ∨ ratio > 0.86 then
    (List.replicate score.length 1, true)
  else
    let thr := fgThr score 0.64
    let rawMask := score.map (fun v => if v > thr then (1 : ℚ) else 0)
    let smoothMask := boxBlur rawMask w h 2
    (smoothMask.map (fun v => if v > 0.42 then (1 : ℚ) else 0), false)

/-- `estimateForegroundMask` from `pipeline.ts`: quantile 0.74, fallback
when the raw ratio is outside `(0.03, 0.92)`, rebinarization bound 0.33. -/
def pipelineEstimateForegroundMask (O : MathOracle) (norm edgeMag : List ℚ)
    (w h : ℕ) (centerBiasWeight : ℚ) : List ℚ × Bool :=
  let score := fgScore O norm edgeMag w h centerBiasWeight
  let ratio := fgRawFraction score 0.74
  if ratio < 0.03 ∨ ratio > 0.92 then
    (List.replicate score.length 1, true)
  else
    let thr := fgThr score 0.74
    let rawMask := score.map (fun v => if v > thr then (1 : ℚ) else 0)
    let smoothMask := boxBlur rawMask w h 2
    (smoothMask.map (fun v => if v > 0.33 then (1 : ℚ) else 0), false)

/-- Dither mode of a preset. -/
inductive Dither where
  | floyd : Dither
  | bayer : Dither

/-- The `PipelinePreset` record of `presets.ts` (the richer table; the
string fields `id`, `name`, `description` are irrelevant to the numeric
core and omitted).  The `pipeline.ts` variant uses a subset of the
fields. -/
structure PipelinePreset where
  edgeWeight : ℚ
  fillWeight : ℚ
  textureWeight : ℚ
  ghostWeight : ℚ
  strokeThickness : ℕ
  grainScale : ℚ
  smoothing : ℚ
  whiteCoverageTarget : ℚ
  coverageTolerance : ℚ
  componentMinArea : ℚ
  componentMaxCount : ℚ
  centerBias : ℚ
  edgeGamma : ℚ
  fillGamma : ℚ
  bandFrequency : ℚ
  spaceiness : ℚ
  backgroundSuppression : ℚ
  lumaSuppression : ℚ
  isolationRadius : ℕ
  isolateWhites : Bool
  minWhiteCoverageFloor : ℚ
  centerFocus : ℚ
  topSuppression : ℚ
  dither : Dither

/-- The optional per-frame modulation record (`MotionFrameOptions`). -/
structure MotionFrameOptions where
  phase : Option ℚ
  flowStrength : Option ℚ
  jitter : Option ℚ

/-- `resolveFrameOptions`: `phase ?? 0`, `clamp01(flowStrength ?? 0)`,
`clamp01(jitter ?? 0)`; an absent frame record behaves like `{}`. -/
def resolveFrameOptions (frame : Option MotionFrameOptions) : ℚ × ℚ × ℚ :=
  ((frame.bind (·.phase)).getD 0,
   clamp01 ((frame.bind (·.flowStrength)).getD 0),
   clamp01 ((frame.bind (·.jitter)).getD 0))

/-- The `BinaryImage` record of `metrics.ts`. -/
structure BinaryImage where
  width : ℕ
  height : ℕ
  data : List ℕ

/-- The `TransformMetrics` record of `metrics.ts`. -/
structure TransformMetrics where
  whiteRatio : ℚ
  componentCount : ℕ
  meanComponentArea : ℚ
  maxComponentArea : ℕ
  edgeAlignmentScore : ℚ
  fallbackSegmentation : Bool
  tunedIterations : ℕ

/-- Result record of `computeBinaryStats`. -/
structure BinaryStats where
  whiteRatio : ℚ

/-- `computeBinaryStats` from `metrics.ts`: the white-pixel fraction with
the `total > 0 ? white / total : 0` guard. -/
def computeBinaryStats (image : BinaryImage) : BinaryStats :=
  let total := image.width * image.height
  let white := (List.range total).countP (fun i => image.data.getD i 0 ≠ 0)
  ⟨if 0 < total then (white : ℚ) / (total : ℚ) else 0⟩

/-- Result record of `connectedComponents`. -/
structure CCStats where
  count : ℕ
  meanArea : ℚ
  maxArea : ℕ
  areas : List ℕ

/-- Inner depth-first search of `connectedComponents` (`metrics.ts`):
pops the top of the stack, counts it, and pushes unvisited 4-neighbors
whose value is exactly 1; the fuel argument bounds the iteration count
(each pushed index is marked visited, so `data.length + 1` pops suffice). -/
def ccDfs (data : List ℕ) (w : ℕ) : ℕ → List ℕ → List Bool → ℕ × List Bool
  | 0, _, visited => (0, visited)
  | _ + 1, [], visited => (0, visited)
  | fuel + 1, cur :: stack, visited =>
    let x := cur % w
    let y := cur / w
    let st := [(-1 : ℤ), 1, -(w : ℤ), (w : ℤ)].foldl
      (fun (st : List ℕ × List Bool) off =>
        let next : ℤ := (cur : ℤ) + off
        if 0 ≤ next ∧ next < (data.length : ℤ) then
          let nn := next.toNat
          if (((nn % w : ℕ) : ℤ) - (x : ℤ)).natAbs + (((nn / w : ℕ) : ℤ) - (y : ℤ)).natAbs ≠ 1
          then st
          else if st.2.getD nn false = false ∧ data.getD nn 0 = 1 then
            (nn :: st.1, st.2.set nn true)
          else st
        else st)
      (stack, visited)
    let res := ccDfs data w fuel st.1 st.2
    (res.1 + 1, res.2)

/-- `connectedComponents` from `metrics.ts`: 4-connected labeling by
stack-based depth-first search over pixels whose value is not 0, with
`count`, guarded `meanArea`, guarded `maxArea`, and the area list. -/
def connectedComponents (image : BinaryImage) : CCStats :=
  let data := image.data
  let w := image.width
  let res := (List.range data.length).foldl
    (fun (st : List Bool × List ℕ) idx =>
      if data.getD idx 0 = 0 ∨ st.1.getD idx false then st
      else
        let r := ccDfs data w (data.length + 1) [idx] (st.1.set idx true)
        (r.2, st.2 ++ [r.1]))
    (List.replicate data.length false, [])
  let areas := res.2
  ⟨areas.length,
   if areas.length ≠ 0 then (areas.sum : ℚ) / (areas.length : ℚ) else 0,
   if areas.length ≠ 0 then areas.foldl max 0 else 0,
   areas⟩

/-- `edgeAlignment` from `metrics.ts`: among pixels whose value is exactly
1, the fraction whose edge magnitude exceeds 0.2, with the
`white ? aligned / white : 0` guard (the source's single loop is split
into two counts over the same index range). -/
def edgeAlignment (binary : BinaryImage) (edgeMap : List ℚ) : ℚ :=
  let white := (List.range binary.data.length).countP
    (fun i => binary.data.getD i 0 = 1)
  let aligned := (List.range binary.data.length).countP
    (fun i => binary.data.getD i 0 = 1 ∧ edgeMap.getD i 0 > 0.2)
  if white ≠ 0 then (aligned : ℚ) / (white : ℚ) else 0

/-- The 8×8 Bayer matrix of `bayerDither` (identical in both files). -/
def bayer8 : List (List ℕ) :=
  [[0, 48, 12, 60, 3, 51, 15, 63],
   [32, 16, 44, 28, 35, 19, 47, 31],
   [8, 56, 4, 52, 11, 59, 7, 55],
   [40, 24, 36, 20, 43, 27, 39, 23],
   [2, 50, 14, 62, 1, 49, 13, 61],
   [34, 18, 46, 30, 33, 17, 45, 29],
   [10, 58, 6, 54, 9, 57, 5, 53],
   [42, 26, 38, 22, 41, 25, 37, 21]]

/-- `bayerDither` (identical in both files): threshold plus the per-pixel
Bayer bias `(B[y%8][x%8]/64 - 0.5) * 0.18`; emits 1 iff strictly above. -/
def bayerDither (map : List ℚ) (w h : ℕ) (threshold : ℚ) : List ℕ :=
  mkGrid w h (fun x y =>
    let bias := (((bayer8.getD (y % 8) []).getD (x % 8) 0 : ℚ) / 64 - 0.5) * 0.18
    if map.getD (y * w + x) 0 > threshold + bias then 1 else 0)

/-- `floydDither` (identical in both files): row-major Floyd–Steinberg
error diffusion over a working copy of the map, writing 1 iff the working
value is `≥ threshold` and distributing the error with weights
7/16, 3/16, 5/16, 1/16 inside the image bounds. -/
def floydDither (map : List ℚ) (w h : ℕ) (threshold : ℚ) : List ℕ :=
  ((List.range h).foldl
    (fun st0 y => (List.range w).foldl
      (fun (st : List ℚ × List ℕ) x =>
        let i := y * w + x
        let old := st.1.getD i 0
        let nw : ℕ := if old ≥ threshold then 1 else 0
        let out := st.2.set i nw
        let err := old - (nw : ℚ)
        let work := st.1
        let work := if x + 1 < w then
          work.set (i + 1) (work.getD (i + 1) 0 + err * (7/16)) else work
        let work := if y + 1 < h ∧ 0 < x then
          work.set (i + w - 1) (work.getD (i + w - 1) 0 + err * (3/16)) else work
        let work := if y + 1 < h then
          work.set (i + w) (work.getD (i + w) 0 + err * (5/16)) else work
        let work := if y + 1 < h ∧ x + 1 < w then
          work.set (i + w + 1) (work.getD (i + w + 1) 0 + err * (1/16)) else work
        (work, out))
      st0)
    (map, List.replicate (w * h) 0)).2

/-- `dilate` (identical in both files): square structuring element of
radius `r`; a pixel becomes 1 iff some in-bounds neighbor is nonzero;
radius 0 returns a copy. -/
def dilate (src : List ℕ) (w h r : ℕ) : List ℕ :=
  if r = 0 then src
  else mkGrid w h (fun x y =>
    if (intRange (-(r : ℤ)) r).any (fun ky => (intRange (-(r : ℤ)) r).any (fun kx =>
        decide (0 ≤ (x : ℤ) + kx) && decide ((x : ℤ) + kx < (w : ℤ)) &&
        decide (0 ≤ (y : ℤ) + ky) && decide ((y : ℤ) + ky < (h : ℤ)) &&
        decide (src.getD (((y : ℤ) + ky).toNat * w + ((x : ℤ) + kx).toNat) 0 ≠ 0)))
    then 1 else 0)

/-- `erode` (identical in both files): a pixel stays 1 iff every position
of the square window is in bounds and nonzero (an out-of-bounds window
position forces 0, so border pixels always erode to 0); radius 0 returns
a copy. -/
def erode (src : List ℕ) (w h r : ℕ) : List ℕ :=
  if r = 0 then src
  else mkGrid w h (fun x y =>
    if (intRange (-(r : ℤ)) r).all (fun ky => (intRange (-(r : ℤ)) r).all (fun kx =>
        decide (0 ≤ (x : ℤ) + kx) && decide ((x : ℤ) + kx < (w : ℤ)) &&
        decide (0 ≤ (y : ℤ) + ky) && decide ((y : ℤ) + ky < (h : ℤ)) &&
        decide (src.getD (((y : ℤ) + ky).toNat * w + ((x : ℤ) + kx).toNat) 0 ≠ 0)))
    then 1 else 0)

/-- Inner depth-first search of `pruneComponents` (identical in both
files): like `ccDfs` but collects the component's pixel list, tests
plain truthiness of `data[next]`, and checks visited/data before the
row-adjacency guard, as the source does. -/
def pruneDfs (data : List ℕ) (w : ℕ) : ℕ → List ℕ → List Bool → List ℕ × List Bool
  | 0, _, visited => ([], visited)
  | _ + 1, [], visited => ([], visited)
  | fuel + 1, cur :: stack, visited =>
    let x := cur % w
    let y := cur / w
    let st := [(-1 : ℤ), 1, -(w : ℤ), (w : ℤ)].foldl
      (fun (st : List ℕ × List Bool) off =>
        let next : ℤ := (cur : ℤ) + off
        if 0 ≤ next ∧ next < (data.length : ℤ) then
          let nn := next.toNat
          if st.2.getD nn false ∨ data.getD nn 0 = 0 then st
          else if (((nn % w : ℕ) : ℤ) - (x : ℤ)).natAbs +
              (((nn / w : ℕ) : ℤ) - (y : ℤ)).natAbs ≠ 1 then st
          else (nn :: st.1, st.2.set nn true)
        else st)
      (stack, visited)
    let res := pruneDfs data w fuel st.1 st.2
    (cur :: res.1, res.2)

/-- `pruneComponents` (identical in both files): 4-connected components of
nonzero pixels, sorted by area descending (stable), keeping those with
`area ≥ minArea` whose descending rank is `< maxCount`, written back to a
fresh buffer. -/
def pruneComponents (data : List ℕ) (w h : ℕ) (minArea maxCount : ℚ) : List ℕ :=
  let comps := ((List.range data.length).foldl
    (fun (st : List Bool × List (List ℕ)) idx =>
      if data.getD idx 0 = 0 ∨ st.1.getD idx false then st
      else
        let r := pruneDfs data w (data.length + 1) [idx] (st.1.set idx true)
        (r.2, st.2 ++ [r.1]))
    (List.replicate data.length false, [])).2
  let sorted := comps.mergeSort (fun a b => decide (b.length ≤ a.length))
  let kept := (sorted.enum.filter
    (fun p => minArea ≤ (p.2.length : ℚ) ∧ (p.1 : ℚ) < maxCount)).map (·.2)
  kept.foldl (fun out c => c.foldl (fun out px => out.set px 1) out)
    (List.replicate data.length 0)

/-- The blocked test of `isolateWhitePixels` (`presets.ts`): scans the
diamond (L1) neighborhood of radius `r` around `idx` (excluding the
center) and reports whether some in-bounds already-accepted pixel lies in
it. -/
def blockedB (out : List ℕ) (w h r idx : ℕ) : Bool :=
  (intRange (-(r : ℤ)) r).any (fun ky => (intRange (-(r : ℤ)) r).any (fun kx =>
    !(kx == 0 && ky == 0) && decide (kx.natAbs + ky.natAbs ≤ r) &&
    decide (0 ≤ ((idx % w : ℕ) : ℤ) + kx) &&
    decide (((idx % w : ℕ) : ℤ) + kx < (w : ℤ)) &&
    decide (0 ≤ ((idx / w : ℕ) : ℤ) + ky) &&
    decide (((idx / w : ℕ) : ℤ) + ky < (h : ℤ)) &&
    decide (out.getD ((((idx / w : ℕ) : ℤ) + ky).toNat * w +
      (((idx % w : ℕ) : ℤ) + kx).toNat) 0 ≠ 0)))

/-- The greedy acceptance loop of `isolateWhitePixels`: walk the ordered
index list, accepting (writing 1) each index not blocked by an
already-accepted neighbor. -/
def acceptFold (w h r : ℕ) (l : List ℕ) (out : List ℕ) : List ℕ :=
  l.foldl (fun out idx => if blockedB out w h r idx then out else out.set idx 1) out

/-- `isolateWhitePixels` from `presets.ts`: for radius 0 a copy of the
input; otherwise the indices of nonzero pixels, stably sorted by guide
value descending, are greedily accepted into a fresh buffer unless an
already-accepted pixel lies within L1 distance `r`. -/
def isolateWhitePixels (data : List ℕ) (guide : List ℚ) (w h r : ℕ) : List ℕ :=
  if r = 0 then data
  else
    let order := (List.range data.length).filter (fun i => data.getD i 0 ≠ 0)
    let sorted := order.mergeSort (fun a b => decide (guide.getD b 0 ≤ guide.getD a 0))
    acceptFold w h r sorted (List.replicate data.length 0)

/-- `applyPostProcessing` from `presets.ts`: stroke-thickness morphology
gated by `spaceiness < 0.7`, spaceiness-scaled component pruning, then
optional white isolation guided by the ink map. -/
def presetsApplyPostProcessing (binary : List ℕ) (guide : List ℚ) (w h : ℕ)
    (preset : PipelinePreset) : List ℕ :=
  let out := binary
  let out :=
    if 1 < preset.strokeThickness then
      let d := dilate out w h (preset.strokeThickness - 1)
      if preset.spaceiness < 0.7 then erode d w h 1 else d
    else if preset.spaceiness < 0.7 then dilate (erode out w h 1) w h 1
    else out
  let minArea : ℚ :=
    ((max 1 (roundQ (preset.componentMinArea * (1 - preset.spaceiness * 0.7))) : ℤ) : ℚ)
  let maxCount : ℚ :=
    ((max 1000 (roundQ (preset.componentMaxCount * (1 + preset.spaceiness * 0.25))) : ℤ) : ℚ)
  let out := pruneComponents out w h minArea maxCount
  if preset.isolateWhites then isolateWhitePixels out guide w h preset.isolationRadius
  else out

/-- `applyPostProcessingNoIsolation` from `presets.ts`: the same sequence
without the isolation step. -/
def presetsApplyPostProcessingNoIsolation (binary : List ℕ) (w h : ℕ)
    (preset : PipelinePreset) : List ℕ :=
  let out := binary
  let out :=
    if 1 < preset.strokeThickness then
      let d := dilate out w h (preset.strokeThickness - 1)
      if preset.spaceiness < 0.7 then erode d w h 1 else d
    else if preset.spaceiness < 0.7 then dilate (erode out w h 1) w h 1
    else out
  let minArea : ℚ :=
    ((max 1 (roundQ (preset.componentMinArea * (1 - preset.spaceiness * 0.7))) : ℤ) : ℚ)
  let maxCount : ℚ :=
    ((max 1000 (roundQ (preset.componentMaxCount * (1 + preset.spaceiness * 0.25))) : ℤ) : ℚ)
  pruneComponents out w h minArea maxCount

/-- `applyPostProcessing` from `pipeline.ts`: unconditional
close-or-open morphology and raw component pruning. -/
def pipelineApplyPostProcessing (binary : List ℕ) (w h : ℕ)
    (preset : PipelinePreset) : List ℕ :=
  let out := binary
  let out :=
    if 1 < preset.strokeThickness then
      erode (dilate out w h (preset.strokeThickness - 1)) w h 1
    else dilate (erode out w h 1) w h 1
  pruneComponents out w h preset.componentMinArea preset.componentMaxCount

/-- `makeBinary` (identical in both files): Floyd–Steinberg or Bayer
according to the preset's dither mode. -/
def makeBinary (map : List ℚ) (w h : ℕ) (preset : PipelinePreset)
    (threshold : ℚ) : List ℕ :=
  match preset.dither with
  | Dither.floyd => floydDither map w h threshold
  | Dither.bayer => bayerDither map w h threshold

/-- Result record of the auto-tune loops. -/
structure TuneResult where
  binary : BinaryImage
  metrics : TransformMetrics

/-- Loop state of the auto-tune loops: threshold, step, best binary so
far, best cost (`none` models the initial `+∞`), best metrics. -/
structure TuneIterState where
  threshold : ℚ
  step : ℚ
  bestData : List ℕ
  bestCost : Option ℚ
  bestMetrics : TransformMetrics

/-- The iteration indices `1..8` of the `for (iter = 1; iter <= 8; ...)`
auto-tune loops. -/
def autoTuneIterList : List ℕ := List.range' 1 8

/-- One iteration of `autoTune` from `presets.ts`: dither at the current
threshold, post-process (re-running without isolation when coverage falls
below the floor and isolation is enabled), compute the composite cost with
the top-band density penalty, keep the best state, and update the
threshold and step. -/
def presetsAutoTuneStep (inkMap edgeMap : List ℚ) (w h : ℕ)
    (preset : PipelinePreset) (fb : Bool) (st : TuneIterState) (iter : ℕ) :
    TuneIterState :=
  let raw := makeBinary inkMap w h preset st.threshold
  let post0 := presetsApplyPostProcessing raw inkMap w h preset
  let coverage0 := (computeBinaryStats ⟨w, h, post0⟩).whiteRatio
  let pc :=
    if coverage0 < preset.minWhiteCoverageFloor ∧ preset.isolateWhites = true then
      let p2 := presetsApplyPostProcessingNoIsolation raw w h preset
      (p2, (computeBinaryStats ⟨w, h, p2⟩).whiteRatio)
    else (post0, coverage0)
  let post := pc.1
  let coverage := pc.2
  let cc := connectedComponents ⟨w, h, post⟩
  let align := edgeAlignment ⟨w, h, post⟩ edgeMap
  let topLimit := (Int.floor ((h : ℚ) * 0.28)).toNat
  let topWhite := ((List.range h).map (fun y =>
    if y < topLimit then (List.range w).countP (fun x => post.getD (y * w + x) 0 ≠ 0)
    else 0)).sum
  let lowWhite := ((List.range h).map (fun y =>
    if y < topLimit then 0
    else (List.range w).countP (fun x => post.getD (y * w + x) 0 ≠ 0))).sum
  let topDensity := (topWhite : ℚ) / max 1 ((topLimit * w : ℕ) : ℚ)
  let lowDensity := (lowWhite : ℚ) / max 1 (((h - topLimit) * w : ℕ) : ℚ)
  let coverageLoss :=
    |coverage - preset.whiteCoverageTarget| / max preset.coverageTolerance 0.01
  let componentPenalty :=
    max 0 ((cc.count : ℚ) - preset.componentMaxCount) / max 1 preset.componentMaxCount
  let sparsePenalty : ℚ := if cc.count = 0 then 2 else 0
  let edgePenalty := max 0 (0.28 - align) * 1.4
  let topBiasPenalty := max 0 (topDensity - lowDensity * 1.15) * 18
  let cost := coverageLoss + componentPenalty + sparsePenalty + edgePenalty + topBiasPenalty
  let better := match st.bestCost with
    | none => true
    | some b => decide (cost < b)
  let st1 := if better then
      { st with
        bestData := post
        bestCost := some cost
        bestMetrics := ⟨coverage, cc.count, cc.meanArea, cc.maxArea, align, fb, iter⟩ }
    else st
  let newThr := if coverage > preset.whiteCoverageTarget then st1.threshold + st1.step
    else st1.threshold - st1.step
  { st1 with threshold := clamp01 newThr, step := st1.step * 0.62 }

/-- `autoTune` from `presets.ts`: initial threshold
`0.34 + 0.04·spaceiness`, step 0.16, eight iterations, returning the best
binary; the loop variable exits at 9, so the reported iteration count is
`9 - 1 = 8`. -/
def presetsAutoTune (inkMap edgeMap : List ℚ) (w h : ℕ)
    (preset : PipelinePreset) (fb : Bool) : TuneResult :=
  let init : TuneIterState :=
    ⟨0.34 + preset.spaceiness * 0.04, 0.16, List.replicate (w * h) 0, none,
     ⟨0, 0, 0, 0, 0, fb, 0⟩⟩
  let st := autoTuneIterList.foldl (presetsAutoTuneStep inkMap edgeMap w h preset fb) init
  ⟨⟨w, h, st.bestData⟩, { st.bestMetrics with tunedIterations := 9 - 1 }⟩

/-- `autoTuneRescue` from `presets.ts`: re-normalize the ink map with
percentiles (0.005, 0.985), boost each element to
`clamp01(v^0.74 · 1.35)`, and rerun the full `autoTune` loop. -/
def presetsAutoTuneRescue (O : MathOracle) (inkMap edgeMap : List ℚ) (w h : ℕ)
    (preset : PipelinePreset) (fb : Bool) : TuneResult :=
  let boosted := (normalizeByPercentile inkMap 0.005 0.985).map
    (fun v => clamp01 (O.pow v 0.74 * 1.35))
  presetsAutoTune boosted edgeMap w h preset fb

/-- One iteration of `autoTune` from `pipeline.ts`: no isolation retry,
no top-band penalty, edge penalty `2·max(0, 0.36 − align)`. -/
def pipelineAutoTuneStep (inkMap edgeMap : List ℚ) (w h : ℕ)
    (preset : PipelinePreset) (fb : Bool) (st : TuneIterState) (iter : ℕ) :
    TuneIterState :=
  let raw := makeBinary inkMap w h preset st.threshold
  let post := pipelineApplyPostProcessing raw w h preset
  let coverage := (computeBinaryStats ⟨w, h, post⟩).whiteRatio
  let cc := connectedComponents ⟨w, h, post⟩
  let align := edgeAlignment ⟨w, h, post⟩ edgeMap
  let coverageLoss :=
    |coverage - preset.whiteCoverageTarget| / max preset.coverageTolerance 0.01
  let componentPenalty :=
    max 0 ((cc.count : ℚ) - preset.componentMaxCount) / max 1 preset.componentMaxCount
  let sparsePenalty : ℚ := if cc.count = 0 then 2 else 0
  let edgePenalty := max 0 (0.36 - align) * 2
  let cost := coverageLoss + componentPenalty + sparsePenalty + edgePenalty
  let better := match st.bestCost with
    | none => true
    | some b => decide (cost < b)
  let st1 := if better then
      { st with
        bestData := post
        bestCost := some cost
        bestMetrics := ⟨coverage, cc.count, cc.meanArea, cc.maxArea, align, fb, iter⟩ }
    else st
  let newThr := if coverage > preset.whiteCoverageTarget then st1.threshold + st1.step
    else st1.threshold - st1.step
  { st1 with threshold := clamp01 newThr, step := st1.step * 0.62 }

/-- `autoTune` from `pipeline.ts`: initial threshold 0.5, step 0.18,
eight iterations; the loop variable exits at 9, so the reported count is
`9 - 1 = 8`. -/
def pipelineAutoTune (inkMap edgeMap : List ℚ) (w h : ℕ)
    (preset : PipelinePreset) (fb : Bool) : TuneResult :=
  let init : TuneIterState :=
    ⟨0.5, 0.18, List.replicate (w * h) 0, none, ⟨0, 0, 0, 0, 0, fb, 0⟩⟩
  let st := autoTuneIterList.foldl (pipelineAutoTuneStep inkMap edgeMap w h preset fb) init
  ⟨⟨w, h, st.bestData⟩, { st.bestMetrics with tunedIterations := 9 - 1 }⟩

/-- `rebalanceInkRows` from `presets.ts`: per-row means over foreground
pixels (`fgMask ≥ 0.15`), a 60th-percentile target over the active rows,
squashed per-row gains smoothed with a radius-10 window, applied with a
final clamp; returns the input unchanged when too few rows are active. -/
def rebalanceInkRows (map fgMask : List ℚ) (w h : ℕ) : List ℚ :=
  let rowStats := (List.range h).map (fun y =>
    let act := (List.range w).filter (fun x => ¬ (fgMask.getD (y * w + x) 0 < 0.15))
    let count := act.length
    let sum := (act.map (fun x => map.getD (y * w + x) 0)).sum
    ((if count ≠ 0 then sum / (count : ℚ) else 0), count))
  let activeRows := (rowStats.filter (fun p => (p.2 : ℚ) > (w : ℚ) * 0.08)).map (·.1)
  if activeRows.length < max 8 (Int.floor ((h : ℚ) * 0.1)).toNat then map
  else
    let sortedA := activeRows.mergeSort (fun a b => decide (a ≤ b))
    let target := sortedA.getD (Int.floor ((sortedA.length : ℚ) * 0.6)).toNat 0.2
    let gains := (List.range h).map (fun y =>
      let base := (rowStats.getD y (0, 0)).1
      let count := (rowStats.getD y (0, 0)).2
      let gain : ℚ :=
        if (count : ℚ) ≤ (w : ℚ) * 0.08 then 1 else target / max EPS base
      clamp01 ((gain - 0.4) / 2.6) * 2.6 + 0.4)
    let smoothG := (List.range h).map (fun y =>
      let ks := (intRange ((y : ℤ) - 10) ((y : ℤ) + 10)).filter
        (fun yy => 0 ≤ yy ∧ yy < (h : ℤ))
      ((ks.map (fun yy => gains.getD yy.toNat 0)).sum) / max 1 (ks.length : ℚ))
    mkGrid w h (fun x y => clamp01 (map.getD (y * w + x) 0 * smoothG.getD y 0))

/-- `buildInkMap` from `presets.ts`: the per-pixel blend of edge, fill,
detail, oriented stripe texture, deterministic grain, ghost bands, and
the background / luminance / center / top / row-gain / stipple / flow
gates, followed by smoothing, row rebalancing, and a percentile stretch. -/
def presetsBuildInkMap (O : MathOracle) (norm lockedTone rowGain : List ℚ)
    (sob : SobelResult) (fgMask : List ℚ) (preset : PipelinePreset)
    (w h : ℕ) (frame : Option MotionFrameOptions) : List ℚ :=
  let fo := resolveFrameOptions frame
  let smooth := boxBlur norm w h 2
  let detail := (List.range norm.length).map (fun i =>
    |norm.getD i 0 - smooth.getD i 0|)
  let edgeNear := boxBlur sob.mag w h 1
  let edgeMid := boxBlur sob.mag w h (max 2 (roundQ (preset.grainScale * 0.5))).toNat
  let edgeFar := boxBlur sob.mag w h (max 4 (roundQ (preset.grainScale * 1.5))).toNat
  let cx := (w : ℚ) * 0.5
  let cy := (h : ℚ) * 0.58
  let sx := (w : ℚ) * 0.34
  let sy := (h : ℚ) * 0.34
  let ink := mkGrid w h (fun x y =>
    let i := y * w + x
    let edge := O.pow (sob.mag.getD i 0) preset.edgeGamma
    let fill := O.pow (lockedTone.getD i 0) preset.fillGamma * fgMask.getD i 0
    let angle := O.atan2 (sob.gy.getD i 0 + EPS) (sob.gx.getD i 0 + EPS)
    let oriented := ((x : ℚ) * O.cos angle + (y : ℚ) * O.sin angle) / max 1 preset.grainScale
    let stripe := O.sin (oriented * 2.2 + angle * 2.6 + fo.1 * 0.7) * 0.5 + 0.5
    let noise := hashNoise x y
    let texture := clamp01 (0.75 * stripe + noise * (0.32 + fo.2.2 * 0.12))
    let flow := clamp01 (0.35 * edgeNear.getD i 0 + 0.35 * edgeMid.getD i 0 +
      0.3 * edgeFar.getD i 0)
    let wavePhase := lockedTone.getD i 0 * 1.6 + flow * 2.4 + oriented * 0.08 + fo.1
    let band := |O.sin (wavePhase * O.pi * preset.bandFrequency)|
    let ghostBand := O.pow band 2.2 * O.pow flow 0.9
    let stippleKeep : ℚ := if noise > preset.spaceiness * 0.72 then 1 else 0.45
    let bgKill := O.pow (clamp01 (fgMask.getD i 0)) (0.8 + preset.backgroundSuppression)
    let darkPrior := O.pow (clamp01 (1 - lockedTone.getD i 0)) (0.8 + preset.lumaSuppression)
    let lumaGate := 0.2 + 0.8 * darkPrior
    let dx := ((x : ℚ) - cx) / max 1 sx
    let dy := ((y : ℚ) - cy) / max 1 sy
    let centerField := O.exp (-(dx * dx + dy * dy))
    let centerGate := 1 - preset.centerFocus + preset.centerFocus * clamp01 (0.35 + 0.65 * centerField)
    let yNorm := (y : ℚ) / max 1 ((h : ℚ) - 1)
    let topFade := 1 - preset.topSuppression * clamp01 ((0.28 - yNorm) / 0.28)
    let v := preset.edgeWeight * edge + preset.fillWeight * fill +
      0.28 * detail.getD i 0 * fgMask.getD i 0 +
      preset.textureWeight * texture * fgMask.getD i 0 +
      preset.ghostWeight * ghostBand * fgMask.getD i 0
    let flowBoost := 1 + fo.2.1 * (flow - 0.45) * 0.3
    clamp01 (v * ((0.3 + 0.7 * bgKill) * lumaGate * centerGate * topFade *
      rowGain.getD y 0 * stippleKeep * flowBoost)))
  let smoothed := boxBlur ink w h (max 0 (roundQ preset.smoothing)).toNat
  let rebalanced := rebalanceInkRows smoothed fgMask w h
  normalizeByPercentile rebalanced 0.01 0.99

/-- `buildInkMap` from `pipeline.ts`: the simpler blend (edge, fill,
detail, stripe texture with quarter-strength grain) scaled by
`0.55 + 0.45·fgMask`, followed by smoothing only. -/
def pipelineBuildInkMap (O : MathOracle) (norm : List ℚ) (sob : SobelResult)
    (fgMask : List ℚ) (preset : PipelinePreset) (w h : ℕ) : List ℚ :=
  let smooth := boxBlur norm w h 2
  let detail := (List.range norm.length).map (fun i =>
    |norm.getD i 0 - smooth.getD i 0|)
  let ink := mkGrid w h (fun x y =>
    let i := y * w + x
    let edge := O.pow (sob.mag.getD i 0) preset.edgeGamma
    let fill := O.pow (norm.getD i 0) preset.fillGamma * fgMask.getD i 0
    let angle := O.atan2 (sob.gy.getD i 0 + EPS) (sob.gx.getD i 0 + EPS)
    let oriented := ((x : ℚ) * O.cos angle + (y : ℚ) * O.sin angle) / max 1 preset.grainScale
    let stripe := O.sin (oriented * 1.9 + angle * 2.7) * 0.5 + 0.5
    let noise := hashNoise x y * 0.25
    let texture := clamp01 (0.78 * stripe + noise)
    let v := preset.edgeWeight * edge + preset.fillWeight * fill +
      0.26 * detail.getD i 0 * fgMask.getD i 0 +
      preset.textureWeight * texture * fgMask.getD i 0
    clamp01 (v * (0.55 + 0.45 * fgMask.getD i 0)))
  boxBlur ink w h (max 0 (roundQ preset.smoothing)).toNat

/-- The `AnalysisBundle` record of `presets.ts` (its `sobelRes` and
`lightTransfer` sub-records are flattened into their buffers). -/
structure AnalysisBundle where
  width : ℕ
  height : ℕ
  preset : PipelinePreset
  norm : List ℚ
  sobelMag : List ℚ
  sobelGx : List ℚ
  sobelGy : List ℚ
  mask : List ℚ
  lockedTone : List ℚ
  rowGain : List ℚ
  fallbackSegmentation : Bool

/-- The output raster assembly shared by `renderFrameFromAnalysis`
(`presets.ts`) and `transformImage` (`pipeline.ts`):
`raw = Buffer.alloc(width*height); raw[i] = data[i] ? 255 : 0`. -/
def rasterOf (w h : ℕ) (data : List ℕ) : List ℕ :=
  (List.range (w * h)).map (fun i => if data.getD i 0 ≠ 0 then 255 else 0)

/-- The numeric core of `renderFrameFromAnalysis` from `presets.ts`
(everything between the analysis record and the PNG encoder): build the
ink map, auto-tune, rescue when the best coverage is below
`0.9·minWhiteCoverageFloor`, and assemble the 0/255 raster. -/
def renderCoreFromAnalysis (O : MathOracle) (a : AnalysisBundle)
    (frame : Option MotionFrameOptions) : List ℕ × TransformMetrics :=
  let sob : SobelResult := ⟨a.sobelMag, a.sobelGx, a.sobelGy⟩
  let inkMap := presetsBuildInkMap O a.norm a.lockedTone a.rowGain sob a.mask
    a.preset a.width a.height frame
  let tuned := presetsAutoTune inkMap a.sobelMag a.width a.height a.preset
    a.fallbackSegmentation
  let tuned2 :=
    if tuned.metrics.whiteRatio < a.preset.minWhiteCoverageFloor * 0.9 then
      presetsAutoTuneRescue O inkMap a.sobelMag a.width a.height a.preset
        a.fallbackSegmentation
    else tuned
  (rasterOf a.width a.height tuned2.binary.data, tuned2.metrics)

/-- The numeric core of `transformImage` from `pipeline.ts` (everything
between the decoded RGB buffer and the PNG encoder): grayscale,
illumination normalization, Sobel, foreground mask, ink map, auto-tune,
and the 0/255 raster assembly. -/
def pipelineTransformCore (O : MathOracle) (rgb : List ℕ) (w h : ℕ)
    (preset : PipelinePreset) : List ℕ × TransformMetrics :=
  let gray := toGray rgb w h
  let norm := illuminationNormalize O gray w h
  let sob := sobel O norm w h
  let mf := pipelineEstimateForegroundMask O norm sob.mag w h preset.centerBias
  let inkMap := pipelineBuildInkMap O norm sob mf.1 preset w h
  let tuned := pipelineAutoTune inkMap sob.mag w h preset mf.2
  (rasterOf w h tuned.binary.data, tuned.metrics)

/-- The geometric neighbor relation scanned by `blockedB`: `j` is the
index of an in-bounds pixel, distinct from `idx`, within L1 distance `r`
of `idx` in the `w × h` grid (offsets bounded by `r` in each axis). -/
def NearIdx (w h r idx j : ℕ) : Prop :=
  ∃ kx ky : ℤ,
    -(r : ℤ) ≤ kx ∧ kx ≤ (r : ℤ) ∧ -(r : ℤ) ≤ ky ∧ ky ≤ (r : ℤ) ∧
    ¬(kx = 0 ∧ ky = 0) ∧ kx.natAbs + ky.natAbs ≤ r ∧
    0 ≤ ((idx % w : ℕ) : ℤ) + kx ∧ ((idx % w : ℕ) : ℤ) + kx < (w : ℤ) ∧
    0 ≤ ((idx / w : ℕ) : ℤ) + ky ∧ ((idx / w : ℕ) : ℤ) + ky < (h : ℤ) ∧
    j = (((idx / w : ℕ) : ℤ) + ky).toNat * w + (((idx % w : ℕ) : ℤ) + kx).toNat

/-- A small concrete preset (the `neon-contour` row of the rich table in
`presets.ts`), used to instantiate witnesses. -/
def samplePreset : PipelinePreset :=
  ⟨0.82, 0.2, 0.2, 0.72, 1, 7, 1.4, 0.13, 0.025, 2, 9000, 0.3, 0.74, 1.6,
   2.8, 0.68, 0.72, 0.66, 1, true, 0.08, 0.48, 0.34, Dither.floyd⟩

/-- A one-pixel analysis bundle used to instantiate witnesses. -/
def sampleAnalysis : AnalysisBundle :=
  ⟨1, 1, samplePreset, [0], [0], [0], [0], [0], [0], [0], false⟩

/- ### theorems -/

theorem toUint32_lt (n : ℤ) : toUint32 n < 4294967296 := by
  have h1 : n % 4294967296 < 4294967296 := Int.emod_lt_of_pos n (by norm_num)
  have h2 : (0 : ℤ) ≤ n % 4294967296 := Int.emod_nonneg n (by norm_num)
  unfold toUint32
  omega

theorem testBit31_iff {a : ℕ} (ha : a < 4294967296) :
    (Nat.testBit a 31 = true ↔ 2147483648 ≤ a) := by
  rw [Nat.testBit_to_div_mod, show (2 : ℕ) ^ 31 = 2147483648 by norm_num]
  rcases le_or_lt 2147483648 a with h | h
  · have hdiv : a / 2147483648 = 1 := by omega
    simp [hdiv, h]
  · have hdiv : a / 2147483648 = 0 := by omega
    simp [hdiv]
    omega

theorem sar32_16_eq (p : ℕ) :
    sar32 p 16 = p / 65536 + (if 2147483648 ≤ p then 4294901760 else 0) := by
  unfold sar32
  norm_num

theorem sar32_16_lt {p : ℕ} (hp : p < 4294967296) : sar32 p 16 < 4294967296 := by
  rw [sar32_16_eq]
  split <;> omega

theorem sar32_16_bit {p : ℕ} (hp : p < 4294967296) :
    Nat.testBit (sar32 p 16) 31 = Nat.testBit p 31 := by
  rw [sar32_16_eq]
  by_cases h : 2147483648 ≤ p
  · rw [if_pos h]
    rw [(testBit31_iff (by omega)).mpr (by omega), (testBit31_iff hp).mpr h]
  · rw [if_neg h, Nat.add_zero]
    rw [Nat.testBit_lt_two_pow
        (show p / 65536 < 2 ^ 31 by rw [show (2 : ℕ) ^ 31 = 2147483648 by norm_num]; omega),
      Nat.testBit_lt_two_pow
        (show p < 2 ^ 31 by rw [show (2 : ℕ) ^ 31 = 2147483648 by norm_num]; omega)]

theorem xor_lt_two_pow_31 {a b : ℕ} (ha : a < 4294967296) (hb : b < 4294967296)
    (hbit : Nat.testBit a 31 = Nat.testBit b 31) : a ^^^ b < 2147483648 := by
  by_contra hcon
  push_neg at hcon
  have : (2 : ℕ) ^ 31 ≤ a ^^^ b := by norm_num; omega
  obtain ⟨i, hi, hbit2⟩ := Nat.ge_two_pow_implies_high_bit_true this
  rw [Nat.testBit_xor] at hbit2
  rcases eq_or_lt_of_le hi with heq | hgt
  · rw [← heq, hbit, Bool.xor_self] at hbit2
    exact Bool.false_ne_true hbit2
  · have h32 : (32 : ℕ) ≤ i := hgt
    have hpow : (4294967296 : ℕ) ≤ 2 ^ i := by
      calc (4294967296 : ℕ) = 2 ^ 32 := by norm_num
      _ ≤ 2 ^ i := Nat.pow_le_pow_right (by norm_num) h32
    rw [Nat.testBit_lt_two_pow (lt_of_lt_of_le ha hpow),
        Nat.testBit_lt_two_pow (lt_of_lt_of_le hb hpow)] at hbit2
    exact Bool.false_ne_true hbit2

theorem hashNoise_final_bound (t : ℤ) :
    (toUint32 t ^^^ sar32 (toUint32 t) 16) < 2147483648 := by
  exact xor_lt_two_pow_31 (toUint32_lt t) (sar32_16_lt (toUint32_lt t))
    (sar32_16_bit (toUint32_lt t)).symm

theorem hashNoiseAux_bound (t : ℤ) :
    0 ≤ ((toUint32 t ^^^ sar32 (toUint32 t) 16 : ℕ) : ℚ) / 4294967295 ∧
    ((toUint32 t ^^^ sar32 (toUint32 t) 16 : ℕ) : ℚ) / 4294967295 < 1 := by
  constructor
  · exact div_nonneg (by exact_mod_cast Nat.zero_le _) (by norm_num)
  · rw [div_lt_one (by norm_num)]
    have h := hashNoise_final_bound t
    have h2 : (toUint32 t ^^^ sar32 (toUint32 t) 16) < 4294967295 := by omega
    exact_mod_cast h2

/-- Claim C8: for every integer pixel coordinate `(x, y)`, the
deterministic hash `hashNoise x y` lies in the half-open interval
`[0, 1)`: it is nonnegative and strictly below `1`. -/
theorem hashNoise_mem_Ico (x y : ℤ) : 0 ≤ hashNoise x y ∧ hashNoise x y < 1 := by
  unfold hashNoise
  exact hashNoiseAux_bound _

theorem rasterOf_length (w h : ℕ) (data : List ℕ) :
    (rasterOf w h data).length = w * h := by
  simp [rasterOf]

theorem rasterOf_mem (w h : ℕ) (data : List ℕ) :
    ∀ b ∈ rasterOf w h data, b = 0 ∨ b = 255 := by
  intro b hb
  simp only [rasterOf, List.mem_map] at hb
  obtain ⟨i, _, hi⟩ := hb
  by_cases hc : data.getD i 0 ≠ 0
  · right; rw [← hi, if_pos hc]
  · left; rw [← hi, if_neg hc]

/-- Claim C1: for every input and preset, the raster handed to the PNG
encoder contains exactly `width * height` single-channel bytes and every
byte is 0 or 255, both in the engine core of `renderFrameFromAnalysis`
(`presets.ts`) and in the core of `transformImage` (`pipeline.ts`). -/
theorem outputRasterStrictBinary :
    (∀ (O : MathOracle) (a : AnalysisBundle) (frame : Option MotionFrameOptions),
      (renderCoreFromAnalysis O a frame).1.length = a.width * a.height ∧
      ∀ b ∈ (renderCoreFromAnalysis O a frame).1, b = 0 ∨ b = 255) ∧
    (∀ (O : MathOracle) (rgb : List ℕ) (w h : ℕ) (preset : PipelinePreset),
      (pipelineTransformCore O rgb w h preset).1.length = w * h ∧
      ∀ b ∈ (pipelineTransformCore O rgb w h preset).1, b = 0 ∨ b = 255) := by
  constructor
  · intro O a frame
    exact ⟨rasterOf_length _ _ _, rasterOf_mem _ _ _⟩
  · intro O rgb w h preset
    exact ⟨rasterOf_length _ _ _, rasterOf_mem _ _ _⟩

/-- Claim C2: the numeric core is deterministic.  The embedded core is a
pure function of the analysis bundle and the frame modulation (for every
oracle assignment of the pure `Math` primitives), so equal inputs give
byte-identical binary output and identical metrics; and `hashNoise` is a
pure function of `(x, y)` alone. -/
theorem renderCoreDeterministic :
    (∀ (O : MathOracle) (a a' : AnalysisBundle) (f f' : Option MotionFrameOptions),
      a = a' → f = f' →
      renderCoreFromAnalysis O a f = renderCoreFromAnalysis O a' f') ∧
    (∀ x y x' y' : ℤ, x = x' → y = y' → hashNoise x y = hashNoise x' y') :=
  ⟨fun _ _ _ _ _ ha hf => by rw [ha, hf], fun _ _ _ _ hx hy => by rw [hx, hy]⟩

theorem renderCoreDeterministic_witness :
    renderCoreFromAnalysis trivialOracle sampleAnalysis none =
      renderCoreFromAnalysis trivialOracle sampleAnalysis none ∧
    hashNoise 0 0 = hashNoise 0 0 :=
  ⟨renderCoreDeterministic.1 trivialOracle sampleAnalysis sampleAnalysis
      none none rfl rfl,
   renderCoreDeterministic.2 0 0 0 0 rfl rfl⟩

/-- Claim C4: the `autoTune` loop of `presets.ts` executes exactly eight
iterations (its iteration list is `1..8`), and the returned metrics carry
`tunedIterations = 8` — the final loop index, not the best iteration —
hence the reported count always lies in `1..8`. -/
theorem autoTuneIterationCount :
    ∀ (inkMap edgeMap : List ℚ) (w h : ℕ) (preset : PipelinePreset) (fb : Bool),
      autoTuneIterList.length = 8 ∧
      (presetsAutoTune inkMap edgeMap w h preset fb).metrics.tunedIterations = 8 ∧
      1 ≤ (presetsAutoTune inkMap edgeMap w h preset fb).metrics.tunedIterations ∧
      (presetsAutoTune inkMap edgeMap w h preset fb).metrics.tunedIterations ≤ 8 := by
  intro inkMap edgeMap w h preset fb
  have h8 : (presetsAutoTune inkMap edgeMap w h preset fb).metrics.tunedIterations = 8 := rfl
  refine ⟨rfl, h8, ?_, ?_⟩
  · rw [h8]; norm_num
  · rw [h8]

/-- Claim C5: the engine core runs the rescue pass exactly when the best
`whiteRatio` of the first `autoTune` is strictly below
`0.9 · minWhiteCoverageFloor`, and the rescue pass is the full
eight-iteration `autoTune` applied to the ink map re-normalized with
percentiles (0.005, 0.985) and boosted by `v ↦ clamp01(v^0.74 · 1.35)`;
its result replaces the first result. -/
theorem rescueTriggerCharacterization :
    (∀ (O : MathOracle) (a : AnalysisBundle) (frame : Option MotionFrameOptions),
      renderCoreFromAnalysis O a frame =
        (let ink := presetsBuildInkMap O a.norm a.lockedTone a.rowGain
            ⟨a.sobelMag, a.sobelGx, a.sobelGy⟩ a.mask a.preset a.width a.height frame
         let first := presetsAutoTune ink a.sobelMag a.width a.height a.preset
            a.fallbackSegmentation
         let final :=
            if first.metrics.whiteRatio < 0.9 * a.preset.minWhiteCoverageFloor then
              presetsAutoTuneRescue O ink a.sobelMag a.width a.height a.preset
                a.fallbackSegmentation
            else first
         (rasterOf a.width a.height final.binary.data, final.metrics))) ∧
    (∀ (O : MathOracle) (ink em : List ℚ) (w h : ℕ) (p : PipelinePreset) (fb : Bool),
      presetsAutoTuneRescue O ink em w h p fb =
        presetsAutoTune ((normalizeByPercentile ink 0.005 0.985).map
          (fun v => clamp01 (O.pow v 0.74 * 1.35))) em w h p fb) := by
  constructor
  · intro O a frame
    have hcomm : (0.9 : ℚ) * a.preset.minWhiteCoverageFloor
        = a.preset.minWhiteCoverageFloor * 0.9 := mul_comm _ _
    rw [hcomm]
    rfl
  · intro O ink em w h p fb
    rfl

/-- Claim C10: the divisions behind the metrics interface are guarded:
`edgeAlignment` returns 0 for an image with no pixel equal to 1,
`connectedComponents` returns `meanArea = 0` and `maxArea = 0` when its
component count is 0, and `computeBinaryStats` returns `whiteRatio = 0`
for an image with zero total pixels. -/
theorem metricsGuardedDivisions :
    (∀ (img : BinaryImage) (em : List ℚ),
      (∀ i < img.data.length, img.data.getD i 0 ≠ 1) → edgeAlignment img em = 0) ∧
    (∀ img : BinaryImage, (connectedComponents img).count = 0 →
      (connectedComponents img).meanArea = 0 ∧ (connectedComponents img).maxArea = 0) ∧
    (∀ img : BinaryImage, img.width * img.height = 0 →
      (computeBinaryStats img).whiteRatio = 0) := by
  refine ⟨?_, ?_, ?_⟩
  · intro img em hno
    simp only [edgeAlignment]
    have hw : (List.range img.data.length).countP
        (fun i => decide (img.data.getD i 0 = 1)) = 0 := by
      apply List.countP_eq_zero.mpr
      intro i hi
      simp only [List.mem_range] at hi
      simpa using hno i hi
    simp only [hw]
    simp
  · intro img h
    have h' : ((connectedComponents img).areas).length = 0 := h
    constructor
    · show (if ((connectedComponents img).areas).length ≠ 0
          then (((connectedComponents img).areas).sum : ℚ) /
            ((((connectedComponents img).areas).length : ℕ) : ℚ)
          else 0) = 0
      simp [h']
    · show (if ((connectedComponents img).areas).length ≠ 0
          then ((connectedComponents img).areas).foldl max 0 else 0) = 0
      simp [h']
  · intro img h
    show (if 0 < img.width * img.height
        then (((List.range (img.width * img.height)).countP
          (fun i => decide (img.data.getD i 0 ≠ 0)) : ℕ) : ℚ) /
          ((img.width * img.height : ℕ) : ℚ)
        else 0) = 0
    simp [h]

theorem metricsGuardedDivisions_witness :
    edgeAlignment ⟨2, 2, [0, 0, 0, 0]⟩ [] = 0 ∧
    ((connectedComponents ⟨2, 2, [0, 0, 0, 0]⟩).meanArea = 0 ∧
     (connectedComponents ⟨2, 2, [0, 0, 0, 0]⟩).maxArea = 0) ∧
    (computeBinaryStats ⟨0, 0, []⟩).whiteRatio = 0 :=
  ⟨metricsGuardedDivisions.1 ⟨2, 2, [0, 0, 0, 0]⟩ [] (by decide),
   metricsGuardedDivisions.2.1 ⟨2, 2, [0, 0, 0, 0]⟩ (by with_unfolding_all decide),
   metricsGuardedDivisions.2.2 ⟨0, 0, []⟩ (by decide)⟩

theorem fgScore_length (O : MathOracle) (norm edgeMag : List ℚ) (w h : ℕ)
    (cb : ℚ) : (fgScore O norm edgeMag w h cb).length = w * h := by
  simp [fgScore, mkGrid]

/-- Claim C3 (amended): `estimateForegroundMask` raises the fallback flag
exactly when the raw thresholded-mask ratio leaves the accepted band, and
in exactly that case returns the all-ones mask — but the two variants use
different bands: `(0.03, 0.86)` in `presets.ts` and `(0.03, 0.92)` in
`pipeline.ts`.  The hypothesis `0 < w * h` restricts to nonempty images
(the only case arising from decoded inputs; an empty buffer would make
the source compute `0/0`). -/
theorem fgFallbackCharacterization :
    ∀ (O : MathOracle) (norm edgeMag : List ℚ) (w h : ℕ) (cb : ℚ), 0 < w * h →
    (((presetsEstimateForegroundMask O norm edgeMag w h cb).2 = true ↔
       (fgRawFraction (fgScore O norm edgeMag w h cb) 0.64 < 0.03 ∨
        fgRawFraction (fgScore O norm edgeMag w h cb) 0.64 > 0.86)) ∧
     ((presetsEstimateForegroundMask O norm edgeMag w h cb).2 = true →
       (presetsEstimateForegroundMask O norm edgeMag w h cb).1 =
         List.replicate (w * h) 1)) ∧
    (((pipelineEstimateForegroundMask O norm edgeMag w h cb).2 = true ↔
       (fgRawFraction (fgScore O norm edgeMag w h cb) 0.74 < 0.03 ∨
        fgRawFraction (fgScore O norm edgeMag w h cb) 0.74 > 0.92)) ∧
     ((pipelineEstimateForegroundMask O norm edgeMag w h cb).2 = true →
       (pipelineEstimateForegroundMask O norm edgeMag w h cb).1 =
         List.replicate (w * h) 1)) := by
  intro O norm edgeMag w h cb _
  have hlen : (fgScore O norm edgeMag w h cb).length = w * h :=
    fgScore_length O norm edgeMag w h cb
  refine ⟨⟨?_, ?_⟩, ⟨?_, ?_⟩⟩
  · simp only [presetsEstimateForegroundMask]
    split
    next hc => simpa using hc
    next hc => simpa using hc
  · simp only [presetsEstimateForegroundMask]
    split
    next hc => intro _; simp [hlen]
    next hc => intro hf; simp at hf
  · simp only [pipelineEstimateForegroundMask]
    split
    next hc => simpa using hc
    next hc => simpa using hc
  · simp only [pipelineEstimateForegroundMask]
    split
    next hc => intro _; simp [hlen]
    next hc => intro hf; simp at hf

theorem fgFallbackCharacterization_witness :
    ((((presetsEstimateForegroundMask trivialOracle (List.replicate 10 0)
          (0 :: List.replicate 9 (3/255)) 10 1 0).2 = true ↔
        (fgRawFraction (fgScore trivialOracle (List.replicate 10 0)
            (0 :: List.replicate 9 (3/255)) 10 1 0) 0.64 < 0.03 ∨
         fgRawFraction (fgScore trivialOracle (List.replicate 10 0)
            (0 :: List.replicate 9 (3/255)) 10 1 0) 0.64 > 0.86)) ∧
      ((presetsEstimateForegroundMask trivialOracle (List.replicate 10 0)
          (0 :: List.replicate 9 (3/255)) 10 1 0).2 = true →
        (presetsEstimateForegroundMask trivialOracle (List.replicate 10 0)
          (0 :: List.replicate 9 (3/255)) 10 1 0).1 = List.replicate (10 * 1) 1)) ∧
     (((pipelineEstimateForegroundMask trivialOracle (List.replicate 10 0)
          (0 :: List.replicate 9 (3/255)) 10 1 0).2 = true ↔
        (fgRawFraction (fgScore trivialOracle (List.replicate 10 0)
            (0 :: List.replicate 9 (3/255)) 10 1 0) 0.74 < 0.03 ∨
         fgRawFraction (fgScore trivialOracle (List.replicate 10 0)
            (0 :: List.replicate 9 (3/255)) 10 1 0) 0.74 > 0.92)) ∧
      ((pipelineEstimateForegroundMask trivialOracle (List.replicate 10 0)
          (0 :: List.replicate 9 (3/255)) 10 1 0).2 = true →
        (pipelineEstimateForegroundMask trivialOracle (List.replicate 10 0)
          (0 :: List.replicate 9 (3/255)) 10 1 0).1 = List.replicate (10 * 1) 1))) :=
  fgFallbackCharacterization trivialOracle (List.replicate 10 0)
    (0 :: List.replicate 9 (3/255)) 10 1 0 (by norm_num)

set_option maxRecDepth 100000 in
set_option maxHeartbeats 1000000 in
/-- Claim C3 counterexample: a concrete `10 × 1` input on which the
`pipeline.ts` variant keeps `fallbackSegmentation = false` although the
raw mask ratio is `9/10 > 0.86` — refuting the claim that both variants
flag exactly outside `[0.03, 0.86]`.  (`centerBias = 0` makes the result
independent of the `hypot` oracle.) -/
theorem fgFallbackCharacterization_counterexample :
    (pipelineEstimateForegroundMask trivialOracle (List.replicate 10 0)
        (0 :: List.replicate 9 (3/255)) 10 1 0).2 = false ∧
    fgRawFraction (fgScore trivialOracle (List.replicate 10 0)
        (0 :: List.replicate 9 (3/255)) 10 1 0) 0.74 > 0.86 := by
  constructor
  · with_unfolding_all decide
  · with_unfolding_all decide

theorem mem_intRange {lo hi k : ℤ} : k ∈ intRange lo hi ↔ lo ≤ k ∧ k ≤ hi := by
  unfold intRange
  rw [List.mem_map]
  constructor
  · rintro ⟨n, hn, rfl⟩
    rw [List.mem_range] at hn
    omega
  · intro h
    refine ⟨(k - lo).toNat, ?_, by omega⟩
    rw [List.mem_range]
    omega

theorem mkGrid_getD {α : Type} {w h : ℕ} {f : ℕ → ℕ → α} {x y : ℕ}
    (hx : x < w) (hy : y < h) (d : α) :
    (mkGrid w h f).getD (y * w + x) d = f x y := by
  have hidx : y * w + x < w * h := by
    calc y * w + x < y * w + w := by omega
    _ = (y + 1) * w := by ring
    _ ≤ h * w := Nat.mul_le_mul_right w hy
    _ = w * h := Nat.mul_comm h w
  have hxw : (y * w + x) % w = x := by
    rw [Nat.mul_comm y w, Nat.mul_add_mod]
    exact Nat.mod_eq_of_lt hx
  have hyw : (y * w + x) / w = y := by
    rw [Nat.mul_comm y w, Nat.mul_add_div (by omega)]
    simp [Nat.div_eq_of_lt hx]
  simp only [mkGrid]
  rw [List.getD_eq_getElem _ _ (by simpa using hidx)]
  simp only [List.getElem_map, List.getElem_range]
  rw [hxw, hyw]

theorem dilate_one_of_mem {src : List ℕ} {w h r : ℕ} (hr : r ≠ 0) {x y : ℕ}
    (hx : x < w) (hy : y < h) (kx ky : ℤ)
    (hkx1 : -(r : ℤ) ≤ kx) (hkx2 : kx ≤ (r : ℤ))
    (hky1 : -(r : ℤ) ≤ ky) (hky2 : ky ≤ (r : ℤ))
    (hb1 : 0 ≤ (x : ℤ) + kx) (hb2 : (x : ℤ) + kx < (w : ℤ))
    (hb3 : 0 ≤ (y : ℤ) + ky) (hb4 : (y : ℤ) + ky < (h : ℤ))
    (hv : src.getD (((y : ℤ) + ky).toNat * w + ((x : ℤ) + kx).toNat) 0 ≠ 0) :
    (dilate src w h r).getD (y * w + x) 0 = 1 := by
  unfold dilate
  rw [if_neg hr, mkGrid_getD hx hy]
  rw [if_pos ?_]
  rw [List.any_eq_true]
  refine ⟨ky, mem_intRange.mpr ⟨hky1, hky2⟩, ?_⟩
  rw [List.any_eq_true]
  refine ⟨kx, mem_intRange.mpr ⟨hkx1, hkx2⟩, ?_⟩
  simp only [Bool.and_eq_true, decide_eq_true_eq]
  exact ⟨⟨⟨⟨hb1, hb2⟩, hb3⟩, hb4⟩, hv⟩

/-- Claim C7 counterexample: a single white pixel at the corner `(0,0)` of
a 3×3 image is present in `B` but absent from `erode(dilate(B,1),1)` —
the erode pass zeroes every border pixel, so the claimed containment
`B ⊆ erode(dilate(B,1),1)` fails. -/
theorem closeContainment_counterexample :
    ([1, 0, 0, 0, 0, 0, 0, 0, 0] : List ℕ).getD 0 0 ≠ 0 ∧
    (erode (dilate [1, 0, 0, 0, 0, 0, 0, 0, 0] 3 3 1) 3 3 1).getD 0 0 = 0 := by
  constructor
  · decide
  · decide

/-- Claim C7 (amended): dilate-then-erode preserves every interior white
pixel: for every buffer `B`, dilation radius `r ≥ 1` (the post-processing
uses `r = strokeThickness - 1 ≥ 1` when `strokeThickness > 1`), and pixel
`(x, y)` with `1 ≤ x ≤ w-2`, `1 ≤ y ≤ h-2` that is white in `B`, the
pixel is still white after `erode(dilate(B, r), 1)`.  Border white pixels
are always cleared by the erode pass (see the counterexample), so the
containment holds exactly on the interior. -/
theorem closePreservesInterior :
    ∀ (B : List ℕ) (w h r x y : ℕ), 1 ≤ r → 1 ≤ x → x + 1 < w → 1 ≤ y → y + 1 < h →
    B.getD (y * w + x) 0 ≠ 0 →
    (erode (dilate B w h r) w h 1).getD (y * w + x) 0 = 1 := by
  intro B w h r x y hr hx1 hx2 hy1 hy2 hB
  have hx : x < w := by omega
  have hy : y < h := by omega
  unfold erode
  rw [if_neg (by omega : (1 : ℕ) ≠ 0), mkGrid_getD hx hy]
  rw [if_pos ?_]
  rw [List.all_eq_true]
  intro ky hky
  rw [List.all_eq_true]
  intro kx hkx
  rw [mem_intRange] at hky hkx
  simp only [Bool.and_eq_true, decide_eq_true_eq]
  have hbx1 : 0 ≤ (x : ℤ) + kx := by omega
  have hbx2 : (x : ℤ) + kx < (w : ℤ) := by omega
  have hby1 : 0 ≤ (y : ℤ) + ky := by omega
  have hby2 : (y : ℤ) + ky < (h : ℤ) := by omega
  refine ⟨⟨⟨⟨hbx1, hbx2⟩, hby1⟩, hby2⟩, ?_⟩
  set nx := ((x : ℤ) + kx).toNat with hnx
  set ny := ((y : ℤ) + ky).toNat with hny
  have hnxw : nx < w := by omega
  have hnyh : ny < h := by omega
  have h1 : (dilate B w h r).getD (ny * w + nx) 0 = 1 := by
    apply dilate_one_of_mem (by omega : r ≠ 0) hnxw hnyh ((x : ℤ) - nx) ((y : ℤ) - ny)
      (by omega) (by omega) (by omega) (by omega)
      (by omega) (by omega) (by omega) (by omega)
    have hxx : ((nx : ℤ) + ((x : ℤ) - nx)).toNat = x := by omega
    have hyy : ((ny : ℤ) + ((y : ℤ) - ny)).toNat = y := by omega
    rw [hxx, hyy]
    exact hB
  rw [h1]
  omega

theorem closePreservesInterior_witness :
    (erode (dilate [0, 0, 0, 0, 1, 0, 0, 0, 0] 3 3 1) 3 3 1).getD (1 * 3 + 1) 0 = 1 :=
  closePreservesInterior [0, 0, 0, 0, 1, 0, 0, 0, 0] 3 3 1 1 1
    (by norm_num) (by norm_num) (by norm_num) (by norm_num) (by norm_num) (by decide)

set_option maxRecDepth 100000 in
set_option maxHeartbeats 1000000 in
/-- Claim C9 counterexample: the one-element buffer `[100.4/255]` is an
output of `normalizeByPercentile` with the default parameters
`(0.02, 0.98)` — it normalizes to `[0.4]` — yet re-normalizing `[0.4]`
with the same parameters yields `[0]`, a change of `0.4 > 1/255`. -/
theorem normalizeTwice_counterexample :
    normalizeByPercentile [(1004 : ℚ)/2550] 0.02 0.98 = [2/5] ∧
    normalizeByPercentile (normalizeByPercentile [(1004 : ℚ)/2550] 0.02 0.98)
      0.02 0.98 = [0] ∧
    ¬ (|(0 : ℚ) - 2/5| ≤ 1/255) := by
  refine ⟨?_, ?_, ?_⟩ <;> with_unfolding_all decide

/-- Claim C9 (amended): re-normalization is the identity — hence changes
no element by more than 1/255 — whenever the already-normalized buffer
(all elements in `[0, 1]`) still spans the full bin range at the
percentile targets, i.e. the second pass finds `lowBin = 0` and
`highBin = 255`.  Without that condition a second application can move an
element by up to ≈ 0.4 (see the counterexample), so the claim as stated
fails. -/
theorem normalizeFullRangeIdentity :
    ∀ (src : List ℚ) (pLow pHigh : ℚ),
      (∀ v ∈ src, 0 ≤ v ∧ v ≤ 1) →
      lowBinOf src pLow = 0 → highBinOf src pHigh = 255 →
      normalizeByPercentile src pLow pHigh = src := by
  intro src pLow pHigh hv hl hh
  simp only [normalizeByPercentile, hl, hh]
  have e1 : ((0 : ℕ) : ℚ) / 255 = 0 := by norm_num
  have e2 : max (((0 : ℕ) : ℚ) / 255 + 1 / 255) (((255 : ℕ) : ℚ) / 255) = 1 := by
    norm_num
  rw [e2, e1]
  have hpt : ∀ v ∈ src, clamp01 ((v - 0) / (1 - 0)) = v := by
    intro v hv'
    obtain ⟨h0, h1⟩ := hv v hv'
    rw [sub_zero, sub_zero, div_one]
    unfold clamp01
    rw [if_neg (not_lt.mpr h0), if_neg (not_lt.mpr h1)]
  rw [List.map_congr_left hpt, List.map_id']

theorem normalizeFullRangeIdentity_witness :
    normalizeByPercentile [(0 : ℚ), 1] (1/2) 1 = [0, 1] :=
  normalizeFullRangeIdentity [(0 : ℚ), 1] (1/2) 1
    (by with_unfolding_all decide)
    (by with_unfolding_all decide)
    (by with_unfolding_all decide)

theorem encode_lt {w h nx ny : ℕ} (hx : nx < w) (hy : ny < h) :
    ny * w + nx < w * h := by
  calc ny * w + nx < ny * w + w := by omega
  _ = (ny + 1) * w := by ring
  _ ≤ h * w := Nat.mul_le_mul_right w hy
  _ = w * h := Nat.mul_comm h w

theorem encode_mod {w nx ny : ℕ} (hx : nx < w) : (ny * w + nx) % w = nx := by
  rw [Nat.mul_comm ny w, Nat.mul_add_mod]
  exact Nat.mod_eq_of_lt hx

theorem encode_div {w nx ny : ℕ} (hx : nx < w) : (ny * w + nx) / w = ny := by
  rw [Nat.mul_comm ny w, Nat.mul_add_div (by omega)]
  simp [Nat.div_eq_of_lt hx]

theorem getD_ne_lt {l : List ℕ} {j : ℕ} (h : l.getD j 0 ≠ 0) : j < l.length := by
  by_contra hc
  push_neg at hc
  rw [List.getD_eq_default _ _ hc] at h
  exact h rfl

theorem getD_set_self {l : List ℕ} {i : ℕ} {a : ℕ} (h : i < l.length) :
    (l.set i a).getD i 0 = a := by
  rw [List.getD_eq_getElem _ _ (by simpa using h)]
  simp

theorem getD_set_ne {l : List ℕ} {i j : ℕ} {a : ℕ} (hne : i ≠ j) :
    (l.set i a).getD j 0 = l.getD j 0 := by
  rcases lt_or_ge j l.length with hj | hj
  · rw [List.getD_eq_getElem _ _ (by simpa using hj), List.getD_eq_getElem _ _ hj]
    exact List.getElem_set_ne hne _
  · rw [List.getD_eq_default _ _ (by simpa using hj), List.getD_eq_default _ _ hj]

theorem getD_replicate_zero {n j : ℕ} : (List.replicate n (0 : ℕ)).getD j 0 = 0 := by
  rcases lt_or_ge j n with hj | hj
  · rw [List.getD_eq_getElem _ _ (by simpa using hj)]
    simp
  · rw [List.getD_eq_default _ _ (by simpa using hj)]

theorem blockedB_iff {out : List ℕ} {w h r idx : ℕ} :
    blockedB out w h r idx = true ↔
      ∃ j, NearIdx w h r idx j ∧ out.getD j 0 ≠ 0 := by
  unfold blockedB NearIdx
  rw [List.any_eq_true]
  constructor
  · rintro ⟨ky, hky, hinner⟩
    rw [List.any_eq_true] at hinner
    obtain ⟨kx, hkx, hc⟩ := hinner
    rw [mem_intRange] at hky hkx
    simp only [Bool.and_eq_true, Bool.not_eq_true', Bool.and_eq_false_iff,
      beq_eq_false_iff_ne, ne_eq, decide_eq_true_eq, beq_iff_eq] at hc
    refine ⟨(((idx / w : ℕ) : ℤ) + ky).toNat * w + (((idx % w : ℕ) : ℤ) + kx).toNat,
      ⟨kx, ky, hkx.1, hkx.2, hky.1, hky.2, ?_, ?_, ?_, ?_, ?_, ?_, rfl⟩, ?_⟩
    · rcases hc.1.1.1.1.1.1 with h1 | h1
      · intro hcon; exact h1 hcon.1
      · intro hcon; exact h1 hcon.2
    · exact hc.1.1.1.1.1.2
    · exact hc.1.1.1.1.2
    · exact hc.1.1.1.2
    · exact hc.1.1.2
    · exact hc.1.2
    · exact hc.2
  · rintro ⟨j, ⟨kx, ky, hkx1, hkx2, hky1, hky2, hne, habs, hbx1, hbx2, hby1, hby2, hj⟩, hval⟩
    refine ⟨ky, mem_intRange.mpr ⟨hky1, hky2⟩, ?_⟩
    rw [List.any_eq_true]
    refine ⟨kx, mem_intRange.mpr ⟨hkx1, hkx2⟩, ?_⟩
    simp only [Bool.and_eq_true, Bool.not_eq_true', Bool.and_eq_false_iff,
      beq_eq_false_iff_ne, ne_eq, decide_eq_true_eq, beq_iff_eq]
    subst hj
    refine ⟨⟨⟨⟨⟨⟨?_, habs⟩, hbx1⟩, hbx2⟩, hby1⟩, hby2⟩, hval⟩
    by_cases hkx0 : kx = 0
    · right; intro hky0; exact hne ⟨hkx0, hky0⟩
    · left; exact hkx0

theorem nearIdx_lt {w h r idx j : ℕ} (hn : NearIdx w h r idx j) : j < w * h := by
  obtain ⟨kx, ky, _, _, _, _, _, _, hbx1, hbx2, hby1, hby2, hj⟩ := hn
  have hx : (((idx % w : ℕ) : ℤ) + kx).toNat < w := by omega
  have hy : (((idx / w : ℕ) : ℤ) + ky).toNat < h := by omega
  rw [hj]
  exact encode_lt hx hy

theorem nearIdx_irrefl {w h r idx : ℕ} : ¬ NearIdx w h r idx idx := by
  rintro ⟨kx, ky, _, _, _, _, hne, _, hbx1, hbx2, hby1, hby2, hj⟩
  have hw : 0 < w := by omega
  have hxn : (((idx % w : ℕ) : ℤ) + kx).toNat < w := by omega
  have hmod : idx % w = (((idx % w : ℕ) : ℤ) + kx).toNat := by
    conv_lhs => rw [hj]
    exact encode_mod hxn
  have hdiv : idx / w = (((idx / w : ℕ) : ℤ) + ky).toNat := by
    conv_lhs => rw [hj]
    exact encode_div hxn
  exact hne ⟨by omega, by omega⟩

theorem nearIdx_symm {w h r idx j : ℕ} (hidx : idx < w * h)
    (hn : NearIdx w h r idx j) : NearIdx w h r j idx := by
  obtain ⟨kx, ky, hkx1, hkx2, hky1, hky2, hne, habs, hbx1, hbx2, hby1, hby2, hj⟩ := hn
  have hw : 0 < w := by omega
  have hx : idx % w < w := Nat.mod_lt _ hw
  have hy : idx / w < h := by
    rw [Nat.div_lt_iff_lt_mul hw, Nat.mul_comm h w]
    exact hidx
  have hxn : (((idx % w : ℕ) : ℤ) + kx).toNat < w := by omega
  have hjmod : j % w = (((idx % w : ℕ) : ℤ) + kx).toNat := by
    rw [hj]; exact encode_mod hxn
  have hjdiv : j / w = (((idx / w : ℕ) : ℤ) + ky).toNat := by
    rw [hj]; exact encode_div hxn
  have hsplit : w * (idx / w) + idx % w = idx := Nat.div_add_mod idx w
  unfold NearIdx
  generalize hm2 : j % w = m2 at *
  generalize hq2 : j / w = q2 at *
  generalize hm : idx % w = m at *
  generalize hq : idx / w = q at *
  refine ⟨-kx, -ky, by omega, by omega, by omega, by omega, ?_, ?_,
    by omega, by omega, by omega, by omega, ?_⟩
  · intro hcon
    exact hne ⟨by omega, by omega⟩
  · rw [Int.natAbs_neg, Int.natAbs_neg]
    exact habs
  · have e1 : ((q2 : ℤ) + -ky).toNat = q := by omega
    have e2 : ((m2 : ℤ) + -kx).toNat = m := by omega
    rw [e1, e2, Nat.mul_comm q w]
    omega

theorem acceptFold_cons {w h r idx : ℕ} {rest : List ℕ} {out : List ℕ} :
    acceptFold w h r (idx :: rest) out =
      acceptFold w h r rest
        (if blockedB out w h r idx then out else out.set idx 1) := rfl

theorem acceptFold_length {w h r : ℕ} (l : List ℕ) (out : List ℕ) :
    (acceptFold w h r l out).length = out.length := by
  induction l generalizing out with
  | nil => rfl
  | cons idx rest ih =>
    rw [acceptFold_cons]
    rw [ih]
    by_cases hb : blockedB out w h r idx
    · rw [if_pos hb]
    · rw [if_neg hb]
      simp

theorem acceptFold_inv {w h r : ℕ} (l : List ℕ) (out : List ℕ)
    (hout : out.length = w * h)
    (hl : ∀ i ∈ l, i < w * h)
    (hbin : ∀ j, out.getD j 0 = 0 ∨ out.getD j 0 = 1)
    (hsep : ∀ i j, out.getD i 0 ≠ 0 → out.getD j 0 ≠ 0 → ¬ NearIdx w h r i j) :
    (∀ j, (acceptFold w h r l out).getD j 0 = 0 ∨
      (acceptFold w h r l out).getD j 0 = 1) ∧
    (∀ i j, (acceptFold w h r l out).getD i 0 ≠ 0 →
      (acceptFold w h r l out).getD j 0 ≠ 0 → ¬ NearIdx w h r i j) := by
  induction l generalizing out with
  | nil => exact ⟨hbin, hsep⟩
  | cons idx rest ih =>
    rw [acceptFold_cons]
    by_cases hb : blockedB out w h r idx = true
    · rw [if_pos hb]
      exact ih out hout (fun i hi => hl i (List.mem_cons_of_mem _ hi)) hbin hsep
    · rw [if_neg hb]
      have hidx : idx < w * h := hl idx (List.mem_cons_self _ _)
      have hidxl : idx < out.length := by omega
      apply ih
      · simpa using hout
      · exact fun i hi => hl i (List.mem_cons_of_mem _ hi)
      · intro j
        by_cases hje : idx = j
        · subst hje
          right
          exact getD_set_self hidxl
        · rw [getD_set_ne hje]
          exact hbin j
      · intro i j hi hj
        have hnb : ¬ ∃ j', NearIdx w h r idx j' ∧ out.getD j' 0 ≠ 0 := by
          rw [← blockedB_iff]
          simp [hb]
        by_cases hie : idx = i
        · subst hie
          by_cases hje : idx = j
          · subst hje
            exact nearIdx_irrefl
          · rw [getD_set_ne hje] at hj
            intro hnear
            exact hnb ⟨j, hnear, hj⟩
        · rw [getD_set_ne hie] at hi
          by_cases hje : idx = j
          · subst hje
            intro hnear
            have hiv : i < w * h := by
              have := getD_ne_lt hi
              omega
            exact hnb ⟨i, nearIdx_symm hiv hnear, hi⟩
          · rw [getD_set_ne hje] at hj
            exact hsep i j hi hj

theorem acceptFold_complete {w h r : ℕ} (S : ℕ → Prop)
    (hS : ∀ i j, S i → S j → ¬ NearIdx w h r i j) :
    ∀ (l : List ℕ) (out : List ℕ),
    (∀ i ∈ l, S i ∧ i < out.length) →
    (∀ j, out.getD j 0 ≠ 0 → S j) →
    (∀ j ∈ l, (acceptFold w h r l out).getD j 0 = 1) ∧
    (∀ j, j ∉ l → (acceptFold w h r l out).getD j 0 = out.getD j 0) := by
  intro l
  induction l with
  | nil =>
    intro out _ _
    exact ⟨by simp, fun j _ => rfl⟩
  | cons idx rest ih =>
    intro out hmem hsub
    have hidx : S idx ∧ idx < out.length := hmem idx (List.mem_cons_self _ _)
    have hnb : blockedB out w h r idx = false := by
      rw [Bool.eq_false_iff]
      intro hb
      obtain ⟨j, hnear, hval⟩ := blockedB_iff.mp hb
      exact hS idx j hidx.1 (hsub j hval) hnear
    have hstep : acceptFold w h r (idx :: rest) out
        = acceptFold w h r rest (out.set idx 1) := by
      rw [acceptFold_cons, hnb]
      simp
    have hmem' : ∀ i ∈ rest, S i ∧ i < (out.set idx 1).length := by
      intro i hi
      have := hmem i (List.mem_cons_of_mem _ hi)
      simpa using this
    have hsub' : ∀ j, (out.set idx 1).getD j 0 ≠ 0 → S j := by
      intro j hval
      by_cases hje : idx = j
      · exact hje ▸ hidx.1
      · rw [getD_set_ne hje] at hval
        exact hsub j hval
    have ih' := ih (out.set idx 1) hmem' hsub'
    rw [hstep]
    constructor
    · intro j hj
      rcases List.mem_cons.mp hj with rfl | hj'
      · by_cases hjr : j ∈ rest
        · exact ih'.1 j hjr
        · rw [ih'.2 j hjr, getD_set_self hidx.2]
      · exact ih'.1 j hj'
    · intro j hj
      have hj1 : idx ≠ j := by
        intro he
        exact hj (he ▸ List.mem_cons_self _ _)
      have hj2 : j ∉ rest := fun hr => hj (List.mem_cons_of_mem _ hr)
      rw [ih'.2 j hj2, getD_set_ne hj1]

theorem isolate_idem_main (data : List ℕ) (guide : List ℚ) (w h r : ℕ)
    (hlen : data.length = w * h) (hr : r ≠ 0) :
    isolateWhitePixels (isolateWhitePixels data guide w h r) guide w h r
      = isolateWhitePixels data guide w h r := by
  generalize hD1g : isolateWhitePixels data guide w h r = D1
  have hD1acc : D1 = acceptFold w h r
      (((List.range data.length).filter (fun i => data.getD i 0 ≠ 0)).mergeSort
        (fun a b => decide (guide.getD b 0 ≤ guide.getD a 0)))
      (List.replicate data.length 0) := by
    rw [← hD1g]
    unfold isolateWhitePixels
    rw [if_neg hr]
  have hD1len : D1.length = w * h := by
    rw [hD1acc, acceptFold_length]
    simpa using hlen
  have hs1mem : ∀ i ∈ ((List.range data.length).filter
      (fun i => data.getD i 0 ≠ 0)).mergeSort
        (fun a b => decide (guide.getD b 0 ≤ guide.getD a 0)), i < w * h := by
    intro i hi
    rw [List.mem_mergeSort, List.mem_filter, List.mem_range] at hi
    omega
  have hbin0 : ∀ j, (List.replicate data.length (0 : ℕ)).getD j 0 = 0 ∨
      (List.replicate data.length (0 : ℕ)).getD j 0 = 1 :=
    fun _ => Or.inl getD_replicate_zero
  have hsep0 : ∀ i j, (List.replicate data.length (0 : ℕ)).getD i 0 ≠ 0 →
      (List.replicate data.length (0 : ℕ)).getD j 0 ≠ 0 → ¬ NearIdx w h r i j :=
    fun i j hi _ => absurd getD_replicate_zero hi
  obtain ⟨hbin1, hsep1⟩ := acceptFold_inv
    (((List.range data.length).filter (fun i => data.getD i 0 ≠ 0)).mergeSort
      (fun a b => decide (guide.getD b 0 ≤ guide.getD a 0)))
    (List.replicate data.length 0) (by simpa using hlen) hs1mem hbin0 hsep0
  rw [← hD1acc] at hbin1 hsep1
  have hmem2 : ∀ i, (i ∈ ((List.range D1.length).filter
      (fun i => D1.getD i 0 ≠ 0)).mergeSort
        (fun a b => decide (guide.getD b 0 ≤ guide.getD a 0))) ↔ D1.getD i 0 ≠ 0 := by
    intro i
    rw [List.mem_mergeSort, List.mem_filter, List.mem_range]
    constructor
    · rintro ⟨_, hv⟩
      simpa using hv
    · intro hv
      exact ⟨getD_ne_lt hv, by simpa using hv⟩
  have harg1 : ∀ i ∈ ((List.range D1.length).filter
      (fun i => D1.getD i 0 ≠ 0)).mergeSort
        (fun a b => decide (guide.getD b 0 ≤ guide.getD a 0)),
      D1.getD i 0 ≠ 0 ∧ i < (List.replicate D1.length (0 : ℕ)).length := by
    intro i hi
    have hv := (hmem2 i).mp hi
    refine ⟨hv, ?_⟩
    simpa using getD_ne_lt hv
  have harg2 : ∀ j, (List.replicate D1.length (0 : ℕ)).getD j 0 ≠ 0 →
      D1.getD j 0 ≠ 0 :=
    fun j hval => absurd getD_replicate_zero hval
  have hcomp := acceptFold_complete (fun j => D1.getD j 0 ≠ 0) hsep1
    (((List.range D1.length).filter (fun i => D1.getD i 0 ≠ 0)).mergeSort
      (fun a b => decide (guide.getD b 0 ≤ guide.getD a 0)))
    (List.replicate D1.length 0) harg1 harg2
  have hD2 : isolateWhitePixels D1 guide w h r
      = acceptFold w h r
        (((List.range D1.length).filter (fun i => D1.getD i 0 ≠ 0)).mergeSort
          (fun a b => decide (guide.getD b 0 ≤ guide.getD a 0)))
        (List.replicate D1.length 0) := by
    unfold isolateWhitePixels
    rw [if_neg hr]
  rw [hD2]
  apply List.ext_getElem
  · rw [acceptFold_length]
    simp
  · intro n h1 h2
    rw [← List.getD_eq_getElem _ 0 h1, ← List.getD_eq_getElem _ 0 h2]
    by_cases hjin : n ∈ ((List.range D1.length).filter
        (fun i => D1.getD i 0 ≠ 0)).mergeSort
          (fun a b => decide (guide.getD b 0 ≤ guide.getD a 0))
    · rw [hcomp.1 n hjin]
      have hv := (hmem2 n).mp hjin
      rcases hbin1 n with h0 | hone
      · exact absurd h0 hv
      · rw [hone]
    · rw [hcomp.2 n hjin, getD_replicate_zero]
      by_cases hv : D1.getD n 0 ≠ 0
      · exact absurd ((hmem2 n).mpr hv) hjin
      · push_neg at hv
        rw [hv]

/-- Claim C6: white-pixel isolation from `presets.ts` is idempotent —
applying `isolateWhitePixels` twice with the same guide and radius gives
the same buffer as applying it once (any accepted set is pairwise farther
than the L1 radius apart, so a second pass accepts everything) — and for
radius 0 the operation is the identity. -/
theorem isolateIdempotent :
    ∀ (data : List ℕ) (guide : List ℚ) (w h r : ℕ), data.length = w * h →
      isolateWhitePixels (isolateWhitePixels data guide w h r) guide w h r
        = isolateWhitePixels data guide w h r ∧
      isolateWhitePixels data guide w h 0 = data := by
  intro data guide w h r hlen
  refine ⟨?_, rfl⟩
  by_cases hr : r = 0
  · subst hr
    rfl
  · exact isolate_idem_main data guide w h r hlen hr

theorem isolateIdempotent_witness :
    (isolateWhitePixels (isolateWhitePixels [1, 1, 0, 0] [1, 0, 0, 0] 2 2 1)
        [1, 0, 0, 0] 2 2 1
      = isolateWhitePixels [1, 1, 0, 0] [1, 0, 0, 0] 2 2 1) ∧
    isolateWhitePixels [1, 1, 0, 0] [1, 0, 0, 0] 2 2 0 = [1, 1, 0, 0] :=
  isolateIdempotent [1, 1, 0, 0] [1, 0, 0, 0] 2 2 1 rfl
